import Mathlib

/-!
# Formal model of the testing-mcp core (connection registry and file editor)

This file gives a shallow embedding, in Lean 4, of the two core subsystems of
the `testing-mcp` repository:

* `src/server/fileEditor.ts` — the marker-region source editor and its
  path-keyed file lock (`withFileLock`);
* `src/server/connectionManager.ts` — the WebSocket connection registry,
  execute-request correlator and readiness waiters.

File contents are modelled as lists of characters; JavaScript's
`content.split('\n')` is `List.splitOn '\n'` and `lines.join('\n')` is
`['\n'].intercalate`.  JavaScript `Map`s are modelled as insertion-ordered
association lists (`set` updates in place or appends; `delete` removes),
`Set`s of callbacks as duplicate-free lists of callback identifiers, and
closures stored in callback lists as tagged values interpreted by an explicit
step function that mirrors each closure's body.  The single-threaded event
loop semantics relevant to the file lock is modelled by an explicit
deterministic scheduler with a microtask queue and a FIFO I/O-completion
queue.
-/

namespace TestingMcp

/-! ## File editor: marker stripping (`fileEditor.ts`, `removeMarkers`) -/

/-- The begin sentinel searched for by `line.includes('// >>>> TESTING-MCP:BEGIN')`
(fileEditor.ts line 137). -/
def beginTag : List Char := "// >>>> TESTING-MCP:BEGIN".toList

/-- The end sentinel searched for by `line.includes('// >>>> TESTING-MCP:END')`
(fileEditor.ts line 141). -/
def endTag : List Char := "// >>>> TESTING-MCP:END".toList

/-- JavaScript `line.includes(pat)`: `pat` occurs contiguously inside `line`. -/
def includesSub (line pat : List Char) : Bool := decide (pat <:+: line)

/-- The loop body of `removeMarkers` (fileEditor.ts lines 134-148): BEGIN
sentinel lines are skipped (setting `inMarkerBlock := true`), END sentinel
lines are skipped (setting `inMarkerBlock := false`), and every other line is
kept.  The `inMarkerBlock` flag is carried exactly as in the source, where it
is assigned but never read. -/
def removeMarkersLoop : List (List Char) → Bool → List (List Char)
  | [], _ => []
  | l :: ls, inMarkerBlock =>
    if includesSub l beginTag then removeMarkersLoop ls true
    else if includesSub l endTag then removeMarkersLoop ls false
    else l :: removeMarkersLoop ls inMarkerBlock

/-- A line survives `removeMarkers` iff it contains neither sentinel tag. -/
def keepLine (l : List Char) : Bool :=
  !(includesSub l beginTag) && !(includesSub l endTag)

/-- `removeMarkers` as a pure content transformation (fileEditor.ts lines
129-150): read the content, split on newlines, run the marker-skipping loop,
join with newlines, write the result back. -/
def removeMarkersContent (c : List Char) : List Char :=
  ['\n'].intercalate (removeMarkersLoop (List.splitOn '\n' c) false)

theorem removeMarkersLoop_eq_filter (ls : List (List Char)) (b : Bool) :
    removeMarkersLoop ls b = ls.filter keepLine := by
  induction ls generalizing b with
  | nil => rfl
  | cons l ls ih =>
    by_cases hb : includesSub l beginTag
    · simp [removeMarkersLoop, hb, List.filter, keepLine, ih]
    · by_cases he : includesSub l endTag
      · simp [removeMarkersLoop, hb, he, List.filter, keepLine, ih]
      · simp [removeMarkersLoop, hb, he, List.filter, keepLine, ih]

theorem splitOnP_sep_false (p : Char → Bool) (xs : List Char) :
    ∀ l ∈ List.splitOnP p xs, ∀ a ∈ l, p a = false := by
  induction xs with
  | nil =>
    intro l hl a ha
    rw [List.splitOnP_nil] at hl
    simp only [List.mem_singleton] at hl
    subst hl
    exact absurd ha (List.not_mem_nil a)
  | cons x xs ih =>
    intro l hl a ha
    rw [List.splitOnP_cons] at hl
    by_cases hp : p x
    · rw [if_pos hp] at hl
      rcases List.mem_cons.mp hl with h | h
      · subst h; exact absurd ha (List.not_mem_nil a)
      · exact ih l h a ha
    · rw [if_neg hp] at hl
      rcases hsplit : List.splitOnP p xs with _ | ⟨hd, tl⟩
      · exact absurd hsplit (List.splitOnP_ne_nil p xs)
      · rw [hsplit, List.modifyHead] at hl
        rcases List.mem_cons.mp hl with h | h
        · subst h
          rcases List.mem_cons.mp ha with h | h
          · subst h; exact eq_false_of_ne_true hp
          · exact ih hd (hsplit ▸ List.mem_cons_self hd tl) a h
        · exact ih l (hsplit ▸ List.mem_cons_of_mem hd h) a ha

theorem splitOn_sep_not_mem (x : Char) (xs : List Char) :
    ∀ l ∈ List.splitOn x xs, x ∉ l := by
  intro l hl hx
  have := splitOnP_sep_false (· == x) xs l hl x hx
  simp at this

/-- Helper: the marker-stripping transformation, viewed on the line list. -/
theorem removeMarkersContent_lines (c : List Char)
    (hne : (List.splitOn '\n' c).filter keepLine ≠ []) :
    List.splitOn '\n' (removeMarkersContent c)
      = (List.splitOn '\n' c).filter keepLine := by
  unfold removeMarkersContent
  rw [removeMarkersLoop_eq_filter]
  refine List.splitOn_intercalate _ '\n' ?_ hne
  intro l hl
  exact splitOn_sep_not_mem '\n' c l (List.mem_filter.mp hl).1

theorem keepLine_nil : keepLine [] = true := by decide

/-- C7, main part: stripping markers twice is the same as stripping once. -/
theorem removeMarkersContent_idem (c : List Char) :
    removeMarkersContent (removeMarkersContent c) = removeMarkersContent c := by
  by_cases hne : (List.splitOn '\n' c).filter keepLine = []
  · have hc : removeMarkersContent c = [] := by
      unfold removeMarkersContent
      rw [removeMarkersLoop_eq_filter, hne]
      rfl
    rw [hc]
    unfold removeMarkersContent
    rw [removeMarkersLoop_eq_filter]
    rw [show List.splitOn '\n' ([] : List Char) = [[]] from rfl]
    rw [show ([[]] : List (List Char)).filter keepLine = [[]] by
      simp [keepLine_nil]]
    rfl
  · unfold removeMarkersContent
    rw [removeMarkersLoop_eq_filter, removeMarkersLoop_eq_filter]
    rw [show ['\n'].intercalate ((List.splitOn '\n' c).filter keepLine)
        = removeMarkersContent c by
      unfold removeMarkersContent; rw [removeMarkersLoop_eq_filter]]
    rw [removeMarkersContent_lines c hne]
    unfold removeMarkersContent
    rw [removeMarkersLoop_eq_filter, List.filter_filter]
    simp only [Bool.and_self]

/-- C7: `stripMarkers` (`removeMarkers`) is idempotent on file content —
applying the transformation twice yields the same content as applying it
once — and the scan drops exactly the lines containing the BEGIN/END sentinel
tags (its `inMarkerBlock` flag notwithstanding) while keeping every other
line verbatim. -/
theorem C7_stripMarkers_idempotent (c : List Char) :
    removeMarkersContent (removeMarkersContent c) = removeMarkersContent c ∧
    removeMarkersLoop (List.splitOn '\n' c) false
      = (List.splitOn '\n' c).filter
          (fun l => !(decide (beginTag <:+: l)) && !(decide (endTag <:+: l))) := by
  refine ⟨removeMarkersContent_idem c, ?_⟩
  rw [removeMarkersLoop_eq_filter]
  rfl

/-! ## File editor: the connect() call site (`fileEditor.ts`,
`removeConnect` / `hasConnectCall`)

The editor locates the call site by parsing the file with ts-morph and
scanning AwaitExpressions in document order for one whose callee text is
`connect` (`findConnectCall`, fileEditor.ts lines 204-222).  We model the
parsed file at statement granularity, the abstraction the spec itself adopts
(§9: "parse file into statements, locate the unique statement whose
expression matches a known shape, treat that statement as the unit of
insertion/removal"). -/

/-- One top-level statement of a parsed test file.  `hasAwaitConnect` records
whether the statement contains an awaited call whose callee's text is
`connect` (what `findConnectCall` detects); `isExprStmt` records whether the
parent walk from that call (fileEditor.ts lines 106-109) reaches an
`ExpressionStatement` — for the distinguished pattern `await connect(...);`
it does.  `text` carries the statement's source text. -/
structure Stmt where
  hasAwaitConnect : Bool
  isExprStmt : Bool
  text : String
deriving DecidableEq, Repr

/-- `removeConnect` (fileEditor.ts lines 93-122): find the first statement
containing an await-connect call; if none, log and leave the file unchanged
(success no-op); otherwise, if the upward walk from the call reaches an
`ExpressionStatement`, remove that statement, else remove nothing; save. -/
def removeConnect : List Stmt → List Stmt
  | [] => []
  | st :: file =>
    if st.hasAwaitConnect then
      (if st.isExprStmt then file else st :: file)
    else st :: removeConnect file

/-- `hasConnectCall` (fileEditor.ts lines 158-167): whether `findConnectCall`
finds an await-connect call anywhere in the file. -/
def hasConnectCall (file : List Stmt) : Bool :=
  file.any (·.hasAwaitConnect)

/-- C8: on a file with exactly one distinguished awaited `connect()` call
(a statement of its own, as in the injected pattern), `removeConnect`
followed by `hasConnectCall` yields `false`; and on a file with no call site
at all, `removeConnect` is a no-op that leaves the content unchanged. -/
theorem C8_removeConnect_then_hasConnectCall (file : List Stmt) :
    ((file.countP (·.hasAwaitConnect) = 1) →
      (∀ st ∈ file, st.hasAwaitConnect → st.isExprStmt) →
      hasConnectCall (removeConnect file) = false) ∧
    (hasConnectCall file = false → removeConnect file = file) := by
  constructor
  · intro hcount hexpr
    induction file with
    | nil => rfl
    | cons st file ih =>
      by_cases h : st.hasAwaitConnect
      · have hex : st.isExprStmt := hexpr st (List.mem_cons_self st file) h
        have : file.countP (·.hasAwaitConnect) = 0 := by
          rw [List.countP_cons, if_pos h] at hcount
          omega
        simp only [removeConnect, h, if_pos, hex, if_true]
        rw [hasConnectCall, List.any_eq_false]
        intro st' hst'
        by_contra hflag
        have hpos : 0 < file.countP (·.hasAwaitConnect) :=
          List.countP_pos_iff.mpr ⟨st', hst', by simpa using hflag⟩
        omega
      · have hcount' : file.countP (·.hasAwaitConnect) = 1 := by
          rw [List.countP_cons, if_neg h] at hcount
          omega
        have hexpr' : ∀ st' ∈ file, st'.hasAwaitConnect → st'.isExprStmt :=
          fun st' h' => hexpr st' (List.mem_cons_of_mem st h')
        simp only [removeConnect, h, if_false, Bool.false_eq_true]
        rw [hasConnectCall, List.any_cons]
        rw [show st.hasAwaitConnect = false by simpa using h]
        rw [Bool.false_or]
        exact ih hcount' hexpr'
  · intro hno
    induction file with
    | nil => rfl
    | cons st file ih =>
      rw [hasConnectCall, List.any_cons, Bool.or_eq_false_iff] at hno
      simp only [removeConnect, hno.1, Bool.false_eq_true, if_false]
      rw [ih hno.2]

/-- Closed witness for C8 at a concrete file: one file with exactly the
distinguished call site, and one file with no call site. -/
theorem C8_removeConnect_then_hasConnectCall_witness :
    (hasConnectCall (removeConnect
        [⟨false, false, "render(<App />);"⟩,
         ⟨true, true, "await connect({ port: 3001 });"⟩,
         ⟨false, false, "expect(button).toBeVisible();"⟩]) = false) ∧
    (removeConnect [⟨false, false, "expect(true).toBe(true);"⟩]
       = [⟨false, false, "expect(true).toBe(true);"⟩]) := by
  constructor
  · exact (C8_removeConnect_then_hasConnectCall _).1 (by decide) (by decide)
  · exact (C8_removeConnect_then_hasConnectCall _).2 (by decide)

/-! ## File editor: the path-keyed file lock (`withFileLock`, fileEditor.ts
lines 246-271) under the Node.js event loop

`withFileLock(file, fn)` reads `this.fileLocks.get(path)`; if an entry
exists it first `await`s it, and only *after* that await resumes does it
create its own promise (running `fn` up to its first suspension) and install
it with `this.fileLocks.set(path, newLock)`; the promise's `finally` clause
unconditionally runs `this.fileLocks.delete(path)`.  Each mutating operation
`fn` is a read-modify-write cycle: suspend on reading the file, compute the
new content, suspend on writing it back.

We model this with a deterministic scheduler for one path: a microtask queue
of operation starts/resumptions (promise continuations resume in FIFO
order), and a FIFO queue of I/O completions.  Microtasks drain before I/O
events, as on the Node event loop.  Operations are submitted synchronously,
without awaiting between them (`Promise.all`per the repository's own lock
test), so all submissions run before any I/O completes. -/

/-- Phase of one mutating operation queued through `withFileLock`. -/
inductive OpPhase (α : Type) where
  | notStarted
  | awaitingLock (lk : Nat)
  | reading
  | writing (content : α)
  | done

/-- Pending I/O completions for the locked file, processed in FIFO order. -/
inductive IOEv (α : Type) where
  | readDone (i : Nat)
  | writeDone (i : Nat) (content : α)

/-- Scheduler state for the operations on one normalized path.  `lock` is the
`fileLocks` map entry for that path (the index of the op whose promise is
installed), `phases` has one entry per submitted operation, `micro` is the
microtask queue of op indices to start or resume, `io` the I/O queue. -/
structure LockSim (α : Type) where
  file : α
  lock : Option Nat
  phases : List (OpPhase α)
  micro : List Nat
  io : List (IOEv α)

/-- The body of `withFileLock` past the (possibly skipped) await: create the
new promise — running `fn` up to its first suspension, the file read — and
install it in the lock map (fileEditor.ts lines 260-268). -/
def startFn {α : Type} (s : LockSim α) (i : Nat) : LockSim α :=
  { s with io := s.io ++ [IOEv.readDone i],
           phases := s.phases.set i OpPhase.reading,
           lock := some i }

/-- One microtask for op `i`: either the synchronous prefix of
`withFileLock` (check the lock map; if an entry exists, `await` it —
suspending *without installing anything*, fileEditor.ts lines 254-257 — else
start `fn`), or the resumption after the awaited lock resolved, which starts
`fn`. -/
def resumeOp {α : Type} (s : LockSim α) (i : Nat) : LockSim α :=
  match s.phases.getD i (OpPhase.done) with
  | OpPhase.notStarted =>
    match s.lock with
    | some lk => { s with phases := s.phases.set i (OpPhase.awaitingLock lk) }
    | none => startFn s i
  | OpPhase.awaitingLock _ => startFn s i
  | _ => s

/-- Indices of operations suspended on op `lk`'s lock promise, in submission
(= attach) order: these resume when that promise settles. -/
def wakeAwaiters {α : Type} (phases : List (OpPhase α)) (lk : Nat) : List Nat :=
  (List.range phases.length).filter (fun j =>
    match phases.getD j (OpPhase.done) with
    | OpPhase.awaitingLock lk' => decide (lk' = lk)
    | _ => false)

/-- Process one I/O completion.  A finished read resumes `fn`, which computes
the new content and issues the write.  A finished write lets `fn` return,
upon which the `finally` clause *unconditionally* deletes the path's lock
entry (fileEditor.ts lines 263-265) and the op's promise settles, waking
every op awaiting it. -/
def handleEvent {α : Type} (ops : List (α → α)) (s : LockSim α) (e : IOEv α) :
    LockSim α :=
  match e with
  | IOEv.readDone i =>
    let f := ops.getD i id
    { s with io := s.io ++ [IOEv.writeDone i (f s.file)],
             phases := s.phases.set i (OpPhase.writing (f s.file)) }
  | IOEv.writeDone i c =>
    { s with file := c,
             lock := none,
             phases := s.phases.set i (OpPhase.done),
             micro := s.micro ++ wakeAwaiters s.phases i }

/-- The event loop driver: drain microtasks first, then I/O completions. -/
def runLock {α : Type} (ops : List (α → α)) : Nat → LockSim α → LockSim α
  | 0, s => s
  | fuel + 1, s =>
    match s.micro with
    | i :: rest => runLock ops fuel (resumeOp { s with micro := rest } i)
    | [] =>
      match s.io with
      | e :: rest => runLock ops fuel (handleEvent ops { s with io := rest } e)
      | [] => s

/-- Initial state: `n` operations submitted back-to-back in one synchronous
slice, no I/O yet, no lock held. -/
def initSim {α : Type} (c0 : α) (n : Nat) : LockSim α :=
  { file := c0, lock := none, phases := List.replicate n OpPhase.notStarted,
    micro := List.range n, io := [] }

/-- Final file content after three mutating operations `f0, f1, f2` are
issued against the same path without awaiting between them. -/
def runThreeLock {α : Type} (f0 f1 f2 : α → α) (c0 : α) : α :=
  (runLock [f0, f1, f2] 20 (initSim c0 3)).file

/-- The successor-step equation of the event-loop driver, stated for a
symbolic fuel value. -/
theorem runLock_succ {α : Type} (ops : List (α → α)) (fuel : Nat) (s : LockSim α) :
    runLock ops (fuel + 1) s =
      match s.micro with
      | i :: rest => runLock ops fuel (resumeOp { s with micro := rest } i)
      | [] =>
        match s.io with
        | e :: rest => runLock ops fuel (handleEvent ops { s with io := rest } e)
        | [] => s := rfl

/-- Evaluating the scheduler: three operations submitted without awaiting end
with `f2 (f0 c0)` — the second operation's write is lost. -/
theorem runThreeLock_eval {α : Type} (f0 f1 f2 : α → α) (c0 : α) :
    runThreeLock f0 f1 f2 c0 = f2 (f0 c0) := by
  have h : runLock [f0, f1, f2] 20 ({ file := c0, lock := none, phases := [OpPhase.notStarted, OpPhase.notStarted, OpPhase.notStarted], micro := [0, 1, 2], io := [] } : LockSim α) = ({ file := f2 (f0 c0), lock := none, phases := [OpPhase.done, OpPhase.done, OpPhase.done], micro := [], io := [] } : LockSim α) := by
    calc runLock [f0, f1, f2] 20 ({ file := c0, lock := none, phases := [OpPhase.notStarted, OpPhase.notStarted, OpPhase.notStarted], micro := [0, 1, 2], io := [] } : LockSim α)
      _ = runLock [f0, f1, f2] 19 ({ file := c0, lock := some 0, phases := [OpPhase.reading, OpPhase.notStarted, OpPhase.notStarted], micro := [1, 2], io := [IOEv.readDone 0] } : LockSim α) := by
            rw [show (20 : Nat) = 19 + 1 from rfl, runLock_succ]; rfl
      _ = runLock [f0, f1, f2] 18 ({ file := c0, lock := some 0, phases := [OpPhase.reading, OpPhase.awaitingLock 0, OpPhase.notStarted], micro := [2], io := [IOEv.readDone 0] } : LockSim α) := by
            rw [show (19 : Nat) = 18 + 1 from rfl, runLock_succ]; rfl
      _ = runLock [f0, f1, f2] 17 ({ file := c0, lock := some 0, phases := [OpPhase.reading, OpPhase.awaitingLock 0, OpPhase.awaitingLock 0], micro := [], io := [IOEv.readDone 0] } : LockSim α) := by
            rw [show (18 : Nat) = 17 + 1 from rfl, runLock_succ]; rfl
      _ = runLock [f0, f1, f2] 16 ({ file := c0, lock := some 0, phases := [OpPhase.writing (f0 c0), OpPhase.awaitingLock 0, OpPhase.awaitingLock 0], micro := [], io := [IOEv.writeDone 0 (f0 c0)] } : LockSim α) := by
            rw [show (17 : Nat) = 16 + 1 from rfl, runLock_succ]; rfl
      _ = runLock [f0, f1, f2] 15 ({ file := f0 c0, lock := none, phases := [OpPhase.done, OpPhase.awaitingLock 0, OpPhase.awaitingLock 0], micro := [1, 2], io := [] } : LockSim α) := by
            rw [show (16 : Nat) = 15 + 1 from rfl, runLock_succ]; rfl
      _ = runLock [f0, f1, f2] 14 ({ file := f0 c0, lock := some 1, phases := [OpPhase.done, OpPhase.reading, OpPhase.awaitingLock 0], micro := [2], io := [IOEv.readDone 1] } : LockSim α) := by
            rw [show (15 : Nat) = 14 + 1 from rfl, runLock_succ]; rfl
      _ = runLock [f0, f1, f2] 13 ({ file := f0 c0, lock := some 2, phases := [OpPhase.done, OpPhase.reading, OpPhase.reading], micro := [], io := [IOEv.readDone 1, IOEv.readDone 2] } : LockSim α) := by
            rw [show (14 : Nat) = 13 + 1 from rfl, runLock_succ]; rfl
      _ = runLock [f0, f1, f2] 12 ({ file := f0 c0, lock := some 2, phases := [OpPhase.done, OpPhase.writing (f1 (f0 c0)), OpPhase.reading], micro := [], io := [IOEv.readDone 2, IOEv.writeDone 1 (f1 (f0 c0))] } : LockSim α) := by
            rw [show (13 : Nat) = 12 + 1 from rfl, runLock_succ]; rfl
      _ = runLock [f0, f1, f2] 11 ({ file := f0 c0, lock := some 2, phases := [OpPhase.done, OpPhase.writing (f1 (f0 c0)), OpPhase.writing (f2 (f0 c0))], micro := [], io := [IOEv.writeDone 1 (f1 (f0 c0)), IOEv.writeDone 2 (f2 (f0 c0))] } : LockSim α) := by
            rw [show (12 : Nat) = 11 + 1 from rfl, runLock_succ]; rfl
      _ = runLock [f0, f1, f2] 10 ({ file := f1 (f0 c0), lock := none, phases := [OpPhase.done, OpPhase.done, OpPhase.writing (f2 (f0 c0))], micro := [], io := [IOEv.writeDone 2 (f2 (f0 c0))] } : LockSim α) := by
            rw [show (11 : Nat) = 10 + 1 from rfl, runLock_succ]; rfl
      _ = runLock [f0, f1, f2] 9 ({ file := f2 (f0 c0), lock := none, phases := [OpPhase.done, OpPhase.done, OpPhase.done], micro := [], io := [] } : LockSim α) := by
            rw [show (10 : Nat) = 9 + 1 from rfl, runLock_succ]; rfl
      _ = ({ file := f2 (f0 c0), lock := none, phases := [OpPhase.done, OpPhase.done, OpPhase.done], micro := [], io := [] } : LockSim α) := rfl
  show (runLock [f0, f1, f2] 20 ({ file := c0, lock := none, phases := [OpPhase.notStarted, OpPhase.notStarted, OpPhase.notStarted], micro := [0, 1, 2], io := [] } : LockSim α)).file = f2 (f0 c0)
  rw [h]

/-- A three-line marker block followed by a connect call line, as injected by
the editor: concrete content for the lock counterexample. -/
def lockDemoContent : List Char :=
  ("// >>>> TESTING-MCP:BEGIN 1 <<<<\nawait connect();\n// >>>> TESTING-MCP:END 1 <<<<").toList

/-- C1: the path-keyed lock does **not** serialize three operations issued
without awaiting between them.  The second and third submissions both await
the first op's promise (each installs its own lock only after that await
resumes), so after op 0 completes they run their read-modify-write cycles
concurrently: both read op 0's output and the third op's write clobbers the
second's.  The final content is `f2 (f0 c0)` — op 1's effect is lost —
instead of the sequential `f2 (f1 (f0 c0))`.  In particular a
`stripMarkers`/`g`/`stripMarkers` triple always ends at `stripMarkers c0`
with the middle operation's effect discarded, and a concrete instance
separates the two outcomes. -/
theorem C1_fileLock_three_ops_not_serialized :
    (∀ (α : Type) (f0 f1 f2 : α → α) (c0 : α),
        runThreeLock f0 f1 f2 c0 = f2 (f0 c0)) ∧
    (∀ (g : List Char → List Char) (c0 : List Char),
        runThreeLock removeMarkersContent g removeMarkersContent c0
          = removeMarkersContent c0) ∧
    (runThreeLock removeMarkersContent (fun _ => "const a = 1;".toList)
        removeMarkersContent lockDemoContent
      ≠ removeMarkersContent ((fun _ => "const a = 1;".toList)
          (removeMarkersContent lockDemoContent))) := by
  refine ⟨fun α f0 f1 f2 c0 => runThreeLock_eval f0 f1 f2 c0, ?_, ?_⟩
  · intro g c0
    rw [runThreeLock_eval]
    exact removeMarkersContent_idem c0
  · rw [runThreeLock_eval]
    decide

/-! ## Connection manager: data model (`connectionManager.ts`,
`types/index.ts`)

WebSocket handles are opaque identifiers (`Nat`).  The closures stored in
`stateUpdateCallbacks` are modelled as tagged values (`Callback`) carrying
the data each closure captured, interpreted by `invokeCallback`; promise
resolutions are reported as an explicit list of `(resolver id, state)`
events.  JavaScript `Map`s are insertion-ordered association lists whose
`set` updates in place or appends and whose `delete` removes the entry. -/

/-- `ContextMetadata` (types/index.ts lines 10-15). -/
structure ContextMetadata where
  name : String
  type : String
  description : Option String
  signature : Option String
deriving DecidableEq, Repr

/-- One captured console entry (types/index.ts lines 37-41); the `any[]`
argument payload is carried opaquely as strings. -/
structure ConsoleLog where
  logType : String
  args : List String
  timestamp : Nat
deriving DecidableEq, Repr

/-- `TestState` (types/index.ts lines 26-35): the snapshot carried by
`ready` and `executed` messages; `sessionId` is optional. -/
structure TestState where
  testFile : String
  testName : String
  dom : String
  snapshot : String
  consoleLogs : List ConsoleLog
  errors : Option (List String)
  sessionId : Option String
  availableContext : Option (List ContextMetadata)
deriving DecidableEq, Repr

/-- The three shapes of closure that can sit in `stateUpdateCallbacks`:
plain `onStateUpdate` subscribers, `waitForReady` waiters, and
`waitForNewSession` waiters, each carrying its captured data. -/
inductive CallbackKind where
  | external
  | forReady (testFile testName : String)
  | forNewSession (testFile testName currentSessionId : String)
deriving DecidableEq, Repr

/-- A callback value: its object identity plus its closure shape. -/
structure Callback where
  id : Nat
  kind : CallbackKind
deriving DecidableEq, Repr

/-- `ConnectionInfo` (connectionManager.ts lines 10-19); callbacks and
execute resolvers are referenced by identity. -/
structure ConnectionInfo where
  ws : Nat
  testFile : String
  testName : String
  state : TestState
  connectedAt : Nat
  sessionId : String
  callbacks : List Nat
  executeResolvers : List (String × Nat)
deriving DecidableEq, Repr

/-- JavaScript `Map.get`: the value of the entry under `k`, if any. -/
def mapGet {κ β : Type} [DecidableEq κ] : List (κ × β) → κ → Option β
  | [], _ => none
  | p :: m, k => if p.1 = k then some p.2 else mapGet m k

/-- JavaScript `Map.set`: update the entry under `k` in place when present
(a `Map` holds at most one entry per key), else append a fresh entry. -/
def mapSet {κ β : Type} [DecidableEq κ] : List (κ × β) → κ → β → List (κ × β)
  | [], k, v => [(k, v)]
  | p :: m, k, v => if p.1 = k then (k, v) :: m else p :: mapSet m k v

/-- JavaScript `Map.delete`: drop the entry under `k`, if any. -/
def mapDelete {κ β : Type} [DecidableEq κ] : List (κ × β) → κ → List (κ × β)
  | [], _ => []
  | p :: m, k => if p.1 = k then m else p :: mapDelete m k

/-- JavaScript `Set.add` on a callback-identity set. -/
def setAdd (s : List Nat) (x : Nat) : List Nat :=
  if x ∈ s then s else s ++ [x]

/-- The mutable state of a `ConnectionManager` (connectionManager.ts lines
23-28): the registry keyed by connection key, the global state-update
callback array, and the pending-callback map from waiter to the identity it
waits for. -/
structure ManagerState where
  connections : List (String × ConnectionInfo)
  stateUpdateCallbacks : List Callback
  pendingCallbacks : List (Nat × String × String)
deriving DecidableEq, Repr

/-- `getConnectionKey` (lines 507-509). -/
def getConnectionKey (testFile testName : String) : String :=
  testFile ++ ":" ++ testName

/-- JavaScript truthiness of an optional string parameter: `undefined` and
the empty string are falsy. -/
def jsFalsy : Option String → Bool
  | none => true
  | some s => s.isEmpty

/-- JS `arr.splice(arr.indexOf(cb), 1)` as it appears *unguarded* in
`waitForReady`'s resolution (lines 315-318): when the callback is absent,
`indexOf` yields `-1` and `splice(-1, 1)` removes the last element. -/
def spliceIndexOf (l : List Callback) (cbId : Nat) : List Callback :=
  match l.findIdx? (fun w => decide (w.id = cbId)) with
  | some i => l.eraseIdx i
  | none => l.dropLast

/-- The guarded removal `const i = arr.indexOf(cb); if (i !== -1)
arr.splice(i, 1)` used by both timeout handlers (lines 300-306, 357-363),
`waitForNewSession`'s resolution (lines 382-385) and the `onStateUpdate`
unsubscriber (lines 413-418): remove the first occurrence when present,
leave the array unchanged otherwise. -/
def removeIfPresent : List Callback → Nat → List Callback
  | [], _ => []
  | w :: l, cbId => if w.id = cbId then l else w :: removeIfPresent l cbId

/-- The match predicate of `waitForReady`'s waiter (line 311): the update
carries the waiter's identity. -/
def readyMatch (testFile testName : String) (st : TestState) : Bool :=
  decide (st.testFile = testFile) && decide (st.testName = testName)

/-- The match predicate of `waitForNewSession`'s waiter (lines 369-374):
same identity, and a truthy (present, nonempty) session id different from
`currentSessionId`. -/
def newSessionMatch (testFile testName currentSessionId : String)
    (st : TestState) : Bool :=
  decide (st.testFile = testFile) && decide (st.testName = testName) &&
    (match st.sessionId with
     | some sid => !sid.isEmpty && decide (sid ≠ currentSessionId)
     | none => false)

/-- Bind a resolved waiter to its connection for later cleanup (lines
323-327, 390-394): add it to the entry's `callbacks` set, when the identity
is registered. -/
def bindToConnection (s : ManagerState) (key : String) (cbId : Nat) :
    ManagerState :=
  match mapGet s.connections key with
  | some c =>
    { s with connections :=
        mapSet s.connections key { c with callbacks := setAdd c.callbacks cbId } }
  | none => s

/-- Run one stored closure on a state update.  `external` subscribers change
nothing.  A `forReady` waiter whose predicate matches removes itself from
the global array (unguarded splice variant), deletes itself from the pending
map, binds itself to the connection and resolves with the state (lines
310-331); a `forNewSession` waiter does the same with its own predicate and
the guarded splice (lines 367-398).  Returns the resolutions produced. -/
def invokeCallback (s : ManagerState) (w : Callback) (st : TestState) :
    ManagerState × List (Nat × TestState) :=
  match w.kind with
  | CallbackKind.external => (s, [])
  | CallbackKind.forReady f n =>
    if readyMatch f n st then
      let s1 := { s with
        stateUpdateCallbacks := spliceIndexOf s.stateUpdateCallbacks w.id,
        pendingCallbacks := mapDelete s.pendingCallbacks w.id }
      (bindToConnection s1 (getConnectionKey f n) w.id, [(w.id, st)])
    else (s, [])
  | CallbackKind.forNewSession f n cur =>
    if newSessionMatch f n cur st then
      let s1 := { s with
        stateUpdateCallbacks := removeIfPresent s.stateUpdateCallbacks w.id,
        pendingCallbacks := mapDelete s.pendingCallbacks w.id }
      (bindToConnection s1 (getConnectionKey f n) w.id, [(w.id, st)])
    else (s, [])

/-- The `for...of` loop of `notifyStateUpdate` (lines 424-432) over the
*live* callback array: the iterator advances an index while invoked
callbacks may splice themselves out of the array. -/
def notifyLoop (st : TestState) : Nat → ManagerState → Nat →
    ManagerState × List (Nat × TestState)
  | 0, s, _ => (s, [])
  | fuel + 1, s, i =>
    match s.stateUpdateCallbacks[i]? with
    | none => (s, [])
    | some w =>
      let p1 := invokeCallback s w st
      let p2 := notifyLoop st fuel p1.1 (i + 1)
      (p2.1, p1.2 ++ p2.2)

/-- `notifyStateUpdate` (lines 424-432).  The fuel — the array length at
entry — bounds the iteration count: the index grows by one per step and the
array never grows during the loop. -/
def notifyStateUpdate (s : ManagerState) (st : TestState) :
    ManagerState × List (Nat × TestState) :=
  notifyLoop st s.stateUpdateCallbacks.length s 0

/-- `handleReadyMessage` (lines 73-114): tag the incoming state with the
freshly generated session id, store a fresh `ConnectionInfo` under the
identity's key — overwriting any prior slot, with empty callback set and
resolver map — acknowledge with `connected` (a send, not modelled), then
notify every state-update callback with the tagged state.  `randomUUID()`
and `Date.now()` enter as the `sessionId` and `now` parameters. -/
def handleReadyMessage (s : ManagerState) (ws : Nat) (st : TestState)
    (sessionId : String) (now : Nat) :
    ManagerState × List (Nat × TestState) :=
  let key := getConnectionKey st.testFile st.testName
  let stateWithSession := { st with sessionId := some sessionId }
  let connectionInfo : ConnectionInfo :=
    { ws := ws, testFile := st.testFile, testName := st.testName,
      state := stateWithSession, connectedAt := now, sessionId := sessionId,
      callbacks := [], executeResolvers := [] }
  notifyStateUpdate
    { s with connections := mapSet s.connections key connectionInfo }
    stateWithSession

/-- `handleExecutedMessage` (lines 119-138): find the connection owning the
socket (first match in registry iteration order), replace its stored state
verbatim with the state carried in the message, and if a resolver is pending
under the message's `executeId`, invoke it with that state and remove it. -/
def handleExecutedMessage (s : ManagerState) (ws : Nat) (executeId : String)
    (st : TestState) : ManagerState × List (Nat × TestState) :=
  match s.connections.find? (fun p => decide (p.2.ws = ws)) with
  | none => (s, [])
  | some (key, connection) =>
    let resolved :=
      match mapGet connection.executeResolvers executeId with
      | some r => [(r, st)]
      | none => []
    let connection' := { connection with
      state := st,
      executeResolvers := mapDelete connection.executeResolvers executeId }
    ({ s with connections := mapSet s.connections key connection' }, resolved)

/-- Result of the synchronous part of `sendExecute`: the new manager state,
the `execute` frames sent (socket, executeId, code), and the immediate
error, if any. -/
structure SendExecuteResult where
  state : ManagerState
  sent : List (Nat × String × String)
  error : Option String
deriving DecidableEq, Repr

/-- `sendExecute` (lines 143-184) up to its suspension: look up the
identity's connection, failing immediately with the `No connection found`
error when absent; otherwise mint the execute token (`randomUUID()`, the
`executeId` parameter), register the resolver under it, and send the
`execute` frame on the connection's socket. -/
def sendExecute (s : ManagerState) (testFile testName code : String)
    (executeId : String) (resolverId : Nat) : SendExecuteResult :=
  let key := getConnectionKey testFile testName
  match mapGet s.connections key with
  | none =>
    { state := s, sent := [],
      error := some ("No connection found for " ++ key) }
  | some connection =>
    let connection' := { connection with
      executeResolvers := mapSet connection.executeResolvers executeId resolverId }
    { state := { s with connections := mapSet s.connections key connection' },
      sent := [(connection.ws, executeId, code)],
      error := none }

/-- Stable insertion into a list sorted descending by `connectedAt`: the new
element goes in front of the first entry whose timestamp does not exceed
its own, keeping existing order among equal timestamps. -/
def insertByConnectedAtDesc (c : ConnectionInfo) :
    List ConnectionInfo → List ConnectionInfo
  | [] => [c]
  | d :: l =>
    if d.connectedAt ≤ c.connectedAt then c :: d :: l
    else d :: insertByConnectedAtDesc c l

/-- JavaScript's `connections.sort((a, b) => b.connectedAt - a.connectedAt)`
(line 264): `Array.prototype.sort` is stable, so the result is *the* stable
descending reordering by `connectedAt`, here realized as a stable insertion
sort. -/
def sortByConnectedAtDesc : List ConnectionInfo → List ConnectionInfo
  | [] => []
  | c :: l => insertByConnectedAtDesc c (sortByConnectedAtDesc l)

/-- `getCurrentState` (lines 257-271).  With a falsy (`undefined` or empty)
`testFile` *or* `testName`: copy the registry's values, sort them descending
by `connectedAt` and return the head's state, or `null` when the registry is
empty.  Otherwise look the identity's key up. -/
def getCurrentState (s : ManagerState) (testFile testName : Option String) :
    Option TestState :=
  if jsFalsy testFile || jsFalsy testName then
    match sortByConnectedAtDesc (s.connections.map Prod.snd) with
    | [] => none
    | c :: _ => some c.state
  else
    match testFile, testName with
    | some f, some n =>
      (mapGet s.connections (getConnectionKey f n)).map (fun c => c.state)
    | _, _ => none

/-- `cleanupCallbacksForTest` (lines 455-495).  Step 1 — removing the
registered entry's bound callbacks from the global array and clearing the
set — runs only when the identity's key is (still) in the registry.  Step 2
collects every pending callback registered for this identity, removes each
from the global array (guarded splice) and deletes it from the pending map. -/
def cleanupCallbacksForTest (s : ManagerState) (testFile testName : String) :
    ManagerState :=
  let key := getConnectionKey testFile testName
  let s1 :=
    match mapGet s.connections key with
    | some connection =>
      { s with
        stateUpdateCallbacks :=
          connection.callbacks.foldl removeIfPresent s.stateUpdateCallbacks,
        connections := mapSet s.connections key
          { connection with callbacks := [] } }
    | none => s
  let pendingToRemove := ((s1.pendingCallbacks.filter
      (fun p => decide (p.2.1 = testFile) && decide (p.2.2 = testName))).map
        Prod.fst)
  { s1 with
    stateUpdateCallbacks :=
      pendingToRemove.foldl removeIfPresent s1.stateUpdateCallbacks,
    pendingCallbacks :=
      pendingToRemove.foldl mapDelete s1.pendingCallbacks }

/-- `removeConnectionByWebSocket` (lines 437-449): find the first registry
entry owning the closed socket, delete it from the registry, then clean up
the callbacks for its identity. -/
def removeConnectionByWebSocket (s : ManagerState) (ws : Nat) : ManagerState :=
  match s.connections.find? (fun p => decide (p.2.ws = ws)) with
  | none => s
  | some (key, connection) =>
    cleanupCallbacksForTest
      { s with connections := mapDelete s.connections key }
      connection.testFile connection.testName

/-- Registering the waiter of `waitForReady` (lines 333-335) when the
identity is not yet connected: push the callback onto the global array and
track it as pending for its identity. -/
def waitForReadyRegister (s : ManagerState) (cbId : Nat)
    (testFile testName : String) : ManagerState :=
  { s with
    stateUpdateCallbacks := s.stateUpdateCallbacks ++
      [⟨cbId, CallbackKind.forReady testFile testName⟩],
    pendingCallbacks := mapSet s.pendingCallbacks cbId (testFile, testName) }

/-- Registering the waiter of `waitForNewSession` (lines 400-402). -/
def waitForNewSessionRegister (s : ManagerState) (cbId : Nat)
    (testFile testName currentSessionId : String) : ManagerState :=
  { s with
    stateUpdateCallbacks := s.stateUpdateCallbacks ++
      [⟨cbId, CallbackKind.forNewSession testFile testName currentSessionId⟩],
    pendingCallbacks := mapSet s.pendingCallbacks cbId (testFile, testName) }

/-- The timeout handler shared by `waitForReady` (lines 298-308) and
`waitForNewSession` (lines 355-365): guarded removal from the global array,
deletion from the pending map; the wait then rejects. -/
def waiterTimeout (s : ManagerState) (cbId : Nat) : ManagerState :=
  { s with
    stateUpdateCallbacks := removeIfPresent s.stateUpdateCallbacks cbId,
    pendingCallbacks := mapDelete s.pendingCallbacks cbId }

/-! ## Library lemmas for the map, set and callback-array model -/

section MapLemmas

variable {κ β : Type} [DecidableEq κ]

theorem mapGet_mapSet_self (m : List (κ × β)) (k : κ) (v : β) :
    mapGet (mapSet m k v) k = some v := by
  induction m with
  | nil => simp [mapSet, mapGet]
  | cons p m ih =>
    by_cases h : p.1 = k
    · simp [mapSet, h, mapGet]
    · rw [mapSet, if_neg h, mapGet, if_neg h]
      exact ih

theorem mapGet_mapSet_ne (m : List (κ × β)) (k k' : κ) (v : β) (h : k' ≠ k) :
    mapGet (mapSet m k v) k' = mapGet m k' := by
  induction m with
  | nil =>
    simp only [mapSet, mapGet]
    rw [if_neg (fun hh => h hh.symm)]
  | cons p m ih =>
    by_cases hp : p.1 = k
    · simp only [mapSet, if_pos hp, mapGet]
      rw [if_neg (fun hh => h hh.symm), if_neg (by rw [hp]; exact fun hh => h hh.symm)]
    · simp only [mapSet, if_neg hp, mapGet, ih]

theorem mapGet_mapDelete_ne (m : List (κ × β)) (k k' : κ) (h : k' ≠ k) :
    mapGet (mapDelete m k) k' = mapGet m k' := by
  induction m with
  | nil => rfl
  | cons p m ih =>
    by_cases hp : p.1 = k
    · simp only [mapDelete, if_pos hp, mapGet]
      rw [if_neg (by rw [hp]; exact fun hh => h hh.symm)]
    · simp only [mapDelete, if_neg hp, mapGet, ih]

theorem mem_mapDelete (m : List (κ × β)) (k : κ) (p : κ × β)
    (h : p ∈ mapDelete m k) : p ∈ m := by
  induction m with
  | nil => exact absurd h (List.not_mem_nil p)
  | cons q m ih =>
    by_cases hq : q.1 = k
    · rw [mapDelete, if_pos hq] at h
      exact List.mem_cons_of_mem q h
    · rw [mapDelete, if_neg hq] at h
      rcases List.mem_cons.mp h with h | h
      · exact h ▸ List.mem_cons_self q m
      · exact List.mem_cons_of_mem q (ih h)

theorem mapDelete_keys_sublist (m : List (κ × β)) (k : κ) :
    ((mapDelete m k).map Prod.fst).Sublist (m.map Prod.fst) := by
  induction m with
  | nil => exact List.Sublist.refl _
  | cons q m ih =>
    by_cases hq : q.1 = k
    · rw [mapDelete, if_pos hq, List.map_cons]
      exact List.sublist_cons_of_sublist _ (List.Sublist.refl _)
    · rw [mapDelete, if_neg hq, List.map_cons, List.map_cons]
      exact List.Sublist.cons₂ _ ih

theorem mapDelete_nodup (m : List (κ × β)) (k : κ)
    (h : (m.map Prod.fst).Nodup) : ((mapDelete m k).map Prod.fst).Nodup :=
  h.sublist (mapDelete_keys_sublist m k)

theorem mapGet_eq_some_mem (m : List (κ × β)) (k : κ) (v : β)
    (h : mapGet m k = some v) : (k, v) ∈ m := by
  induction m with
  | nil => exact absurd h (by simp [mapGet])
  | cons p m ih =>
    by_cases hp : p.1 = k
    · rw [mapGet, if_pos hp] at h
      have : p = (k, v) := by
        obtain ⟨p1, p2⟩ := p
        injection h with h2
        simp only at hp h2
        rw [hp, h2]
      exact this ▸ List.mem_cons_self p m
    · rw [mapGet, if_neg hp] at h
      exact List.mem_cons_of_mem p (ih h)

theorem mapGet_of_mem_nodup (m : List (κ × β)) (k : κ) (v : β)
    (hnd : (m.map Prod.fst).Nodup) (h : (k, v) ∈ m) : mapGet m k = some v := by
  induction m with
  | nil => exact absurd h (List.not_mem_nil _)
  | cons p m ih =>
    rw [List.map_cons, List.nodup_cons] at hnd
    rcases List.mem_cons.mp h with h | h
    · rw [← h, mapGet, if_pos rfl]
    · have hk : k ∈ m.map Prod.fst := List.mem_map.mpr ⟨(k, v), h, rfl⟩
      have hp : p.1 ≠ k := fun he => hnd.1 (he ▸ hk)
      rw [mapGet, if_neg hp]
      exact ih hnd.2 h

theorem mapGet_none_of_forall (m : List (κ × β)) (k : κ)
    (h : ∀ p ∈ m, p.1 ≠ k) : mapGet m k = none := by
  induction m with
  | nil => rfl
  | cons p m ih =>
    rw [mapGet, if_neg (h p (List.mem_cons_self p m))]
    exact ih (fun q hq => h q (List.mem_cons_of_mem p hq))

theorem mem_mapDelete_ne (m : List (κ × β)) (k : κ) (p : κ × β)
    (hnd : (m.map Prod.fst).Nodup) (h : p ∈ mapDelete m k) : p.1 ≠ k := by
  induction m with
  | nil => exact absurd h (List.not_mem_nil p)
  | cons q m ih =>
    rw [List.map_cons, List.nodup_cons] at hnd
    by_cases hq : q.1 = k
    · rw [mapDelete, if_pos hq] at h
      intro he
      exact hnd.1 (hq ▸ he ▸ List.mem_map.mpr ⟨p, h, rfl⟩)
    · rw [mapDelete, if_neg hq] at h
      rcases List.mem_cons.mp h with h | h
      · exact h ▸ hq
      · exact ih hnd.2 h

theorem mapGet_mapDelete_self (m : List (κ × β)) (k : κ)
    (h : (m.map Prod.fst).Nodup) : mapGet (mapDelete m k) k = none :=
  mapGet_none_of_forall _ _ (fun p hp => mem_mapDelete_ne m k p h hp)

theorem foldl_mapDelete_mem (ids : List κ) (m : List (κ × β)) (p : κ × β)
    (hnd : (m.map Prod.fst).Nodup) (h : p ∈ ids.foldl mapDelete m) :
    p ∈ m ∧ p.1 ∉ ids := by
  induction ids generalizing m with
  | nil => exact ⟨h, List.not_mem_nil _⟩
  | cons i ids ih =>
    rw [List.foldl_cons] at h
    obtain ⟨hmem, hnin⟩ := ih (mapDelete m i) (mapDelete_nodup m i hnd) h
    refine ⟨mem_mapDelete m i p hmem, ?_⟩
    rw [List.mem_cons]
    rintro (he | he)
    · exact mem_mapDelete_ne m i p hnd hmem he
    · exact hnin he

theorem keys_mapSet_mem (m : List (κ × β)) (k x : κ) (v : β)
    (h : x ∈ (mapSet m k v).map Prod.fst) :
    x ∈ m.map Prod.fst ∨ x = k := by
  induction m with
  | nil =>
    simp only [mapSet, List.map_cons, List.map_nil, List.mem_singleton] at h
    exact Or.inr h
  | cons p m ih =>
    by_cases hp : p.1 = k
    · rw [mapSet, if_pos hp, List.map_cons] at h
      rcases List.mem_cons.mp h with h | h
      · exact Or.inr h
      · exact Or.inl (List.mem_cons_of_mem _ h)
    · rw [mapSet, if_neg hp, List.map_cons] at h
      rcases List.mem_cons.mp h with h | h
      · exact Or.inl (h ▸ List.mem_cons_self _ _)
      · rcases ih h with h | h
        · exact Or.inl (List.mem_cons_of_mem _ h)
        · exact Or.inr h

theorem mapSet_keys_nodup (m : List (κ × β)) (k : κ) (v : β)
    (h : (m.map Prod.fst).Nodup) : ((mapSet m k v).map Prod.fst).Nodup := by
  induction m with
  | nil => simp [mapSet]
  | cons p m ih =>
    rw [List.map_cons, List.nodup_cons] at h
    by_cases hp : p.1 = k
    · rw [mapSet, if_pos hp, List.map_cons, List.nodup_cons]
      exact ⟨hp ▸ h.1, h.2⟩
    · rw [mapSet, if_neg hp, List.map_cons, List.nodup_cons]
      refine ⟨fun hmem => ?_, ih h.2⟩
      rcases keys_mapSet_mem m k p.1 v hmem with hm | hm
      · exact h.1 hm
      · exact hp hm

theorem mem_mapSet (m : List (κ × β)) (k : κ) (v : β) (q : κ × β)
    (h : q ∈ mapSet m k v) : q ∈ m ∨ q = (k, v) := by
  induction m with
  | nil =>
    simp only [mapSet, List.mem_singleton] at h
    exact Or.inr h
  | cons p m ih =>
    by_cases hp : p.1 = k
    · rw [mapSet, if_pos hp] at h
      rcases List.mem_cons.mp h with h | h
      · exact Or.inr h
      · exact Or.inl (List.mem_cons_of_mem _ h)
    · rw [mapSet, if_neg hp] at h
      rcases List.mem_cons.mp h with h | h
      · exact Or.inl (h ▸ List.mem_cons_self _ _)
      · rcases ih h with h | h
        · exact Or.inl (List.mem_cons_of_mem _ h)
        · exact Or.inr h

theorem mem_key_unique (m : List (κ × β)) (k : κ) (a b : β)
    (hnd : (m.map Prod.fst).Nodup) (ha : (k, a) ∈ m) (hb : (k, b) ∈ m) :
    a = b := by
  have h1 := mapGet_of_mem_nodup m k a hnd ha
  have h2 := mapGet_of_mem_nodup m k b hnd hb
  rw [h1] at h2
  exact Option.some.inj h2

theorem mapSet_eq_map_of_get (m : List (κ × β)) (k : κ) (v c : β)
    (hnd : (m.map Prod.fst).Nodup) (hget : mapGet m k = some c) :
    mapSet m k v = m.map (fun p => if p.1 = k then (k, v) else p) := by
  induction m with
  | nil => exact absurd hget (by simp [mapGet])
  | cons p m ih =>
    rw [List.map_cons, List.nodup_cons] at hnd
    by_cases hp : p.1 = k
    · rw [mapSet, if_pos hp, List.map_cons, if_pos hp]
      have hm : ∀ q ∈ m, (if q.1 = k then ((k, v) : κ × β) else q) = id q := by
        intro q hq
        have hne : q.1 ≠ k :=
          fun he => hnd.1 (hp ▸ he ▸ List.mem_map.mpr ⟨q, hq, rfl⟩)
        simp [hne]
      rw [List.map_congr_left hm, List.map_id]
    · rw [mapGet, if_neg hp] at hget
      rw [mapSet, if_neg hp, List.map_cons, if_neg hp, ih hnd.2 hget]

theorem find?_map_pred {γ : Type} (m : List γ) (fm : γ → γ) (q : γ → Bool)
    (hq : ∀ p ∈ m, q (fm p) = q p) :
    (m.map fm).find? q = (m.find? q).map fm := by
  induction m with
  | nil => rfl
  | cons p m ih =>
    rw [List.map_cons]
    by_cases hp : q p
    · have hfp : q (fm p) = true := by
        rw [hq p (List.mem_cons_self p m)]
        exact hp
      rw [List.find?_cons_of_pos _ hfp, List.find?_cons_of_pos _ hp]
      rfl
    · rw [Bool.not_eq_true] at hp
      have hfp : q (fm p) = false := by
        rw [hq p (List.mem_cons_self p m)]
        exact hp
      rw [List.find?_cons_of_neg _ (by rw [hfp]; exact Bool.false_ne_true),
        List.find?_cons_of_neg _ (by rw [hp]; exact Bool.false_ne_true)]
      exact ih (fun x hx => hq x (List.mem_cons_of_mem p hx))

end MapLemmas

theorem removeIfPresent_sublist (l : List Callback) (cb : Nat) :
    (removeIfPresent l cb).Sublist l := by
  induction l with
  | nil => exact List.Sublist.refl _
  | cons w l ih =>
    by_cases h : w.id = cb
    · rw [removeIfPresent, if_pos h]
      exact List.sublist_cons_of_sublist w (List.Sublist.refl l)
    · rw [removeIfPresent, if_neg h]
      exact List.Sublist.cons₂ w ih

theorem spliceIndexOf_sublist (l : List Callback) (cb : Nat) :
    (spliceIndexOf l cb).Sublist l := by
  unfold spliceIndexOf
  cases l.findIdx? (fun w => decide (w.id = cb)) with
  | none => exact List.dropLast_sublist l
  | some i => exact List.eraseIdx_sublist l i

theorem foldl_removeIfPresent_sublist (ids : List Nat) (l : List Callback) :
    (ids.foldl removeIfPresent l).Sublist l := by
  induction ids generalizing l with
  | nil => exact List.Sublist.refl l
  | cons i ids ih =>
    rw [List.foldl_cons]
    exact (ih (removeIfPresent l i)).trans (removeIfPresent_sublist l i)

theorem mem_removeIfPresent_ne (l : List Callback) (cb : Nat)
    (hnd : (l.map Callback.id).Nodup) (w : Callback)
    (h : w ∈ removeIfPresent l cb) : w ∈ l ∧ w.id ≠ cb := by
  induction l with
  | nil => exact absurd h (List.not_mem_nil w)
  | cons x l ih =>
    rw [List.map_cons, List.nodup_cons] at hnd
    by_cases hx : x.id = cb
    · rw [removeIfPresent, if_pos hx] at h
      refine ⟨List.mem_cons_of_mem x h, fun he => ?_⟩
      exact hnd.1 (hx ▸ he ▸ List.mem_map.mpr ⟨w, h, rfl⟩)
    · rw [removeIfPresent, if_neg hx] at h
      rcases List.mem_cons.mp h with h | h
      · exact ⟨h ▸ List.mem_cons_self x l, h ▸ hx⟩
      · obtain ⟨hm, hne⟩ := ih hnd.2 h
        exact ⟨List.mem_cons_of_mem x hm, hne⟩

theorem foldl_removeIfPresent_mem (ids : List Nat) (l : List Callback)
    (hnd : (l.map Callback.id).Nodup) (w : Callback)
    (h : w ∈ ids.foldl removeIfPresent l) : w ∈ l ∧ w.id ∉ ids := by
  induction ids generalizing l with
  | nil => exact ⟨h, List.not_mem_nil _⟩
  | cons i ids ih =>
    rw [List.foldl_cons] at h
    have hnd' : ((removeIfPresent l i).map Callback.id).Nodup :=
      hnd.sublist ((removeIfPresent_sublist l i).map Callback.id)
    obtain ⟨hmem, hnin⟩ := ih (removeIfPresent l i) hnd' h
    obtain ⟨hm, hne⟩ := mem_removeIfPresent_ne l i hnd w hmem
    refine ⟨hm, ?_⟩
    rw [List.mem_cons]
    rintro (he | he)
    · exact hne he
    · exact hnin he

/-- When the callback is present, the unguarded splice coincides with the
guarded one: both remove the first occurrence. -/
theorem spliceIndexOf_found (l : List Callback) (cb : Nat)
    (hex : ∃ x ∈ l, x.id = cb) : spliceIndexOf l cb = removeIfPresent l cb := by
  induction l with
  | nil =>
    obtain ⟨x, hx, _⟩ := hex
    exact absurd hx (List.not_mem_nil x)
  | cons x l ih =>
    unfold spliceIndexOf
    rw [List.findIdx?_cons]
    by_cases hx : x.id = cb
    · rw [if_pos (by simpa using hx), removeIfPresent, if_pos hx]
      rfl
    · rw [if_neg (by simpa using hx), List.findIdx?_succ]
      obtain ⟨y, hy, hyid⟩ := hex
      rcases List.mem_cons.mp hy with h | h
      · exact absurd (h ▸ hyid) hx
      · cases hfi : l.findIdx? (fun w => decide (w.id = cb)) with
        | none =>
          have := List.findIdx?_eq_none_iff.mp hfi y h
          rw [hyid] at this
          simp at this
        | some i =>
          show (x :: l).eraseIdx (i + 1) = removeIfPresent (x :: l) cb
          rw [removeIfPresent, if_neg hx, ← ih ⟨y, h, hyid⟩]
          show x :: l.eraseIdx i = x :: spliceIndexOf l cb
          unfold spliceIndexOf
          rw [hfi]

/-! ## Frame lemmas: the waiter machinery mutates only callback bookkeeping -/

/-- Forget an entry's `callbacks` set — the only `ConnectionInfo` field the
waiter machinery mutates on a registered connection. -/
def stripCbs (c : ConnectionInfo) : ConnectionInfo := { c with callbacks := [] }

/-- The registry up to each entry's `callbacks` set. -/
def connsShape (m : List (String × ConnectionInfo)) :
    List (String × ConnectionInfo) :=
  m.map (fun p => (p.1, stripCbs p.2))

theorem connsShape_keys (m : List (String × ConnectionInfo)) :
    (connsShape m).map Prod.fst = m.map Prod.fst := by
  induction m with
  | nil => rfl
  | cons p m ih => simp [connsShape, ih]

theorem mapGet_connsShape (m : List (String × ConnectionInfo)) (k : String) :
    mapGet (connsShape m) k = (mapGet m k).map stripCbs := by
  induction m with
  | nil => rfl
  | cons p m ih =>
    by_cases h : p.1 = k
    · simp [connsShape, mapGet, h]
    · simp only [connsShape, List.map_cons, mapGet, if_neg h] at ih ⊢
      exact ih

theorem connsShape_mapSet (m : List (String × ConnectionInfo)) (k : String)
    (v c : ConnectionInfo) (hget : mapGet m k = some c)
    (hv : stripCbs v = stripCbs c) :
    connsShape (mapSet m k v) = connsShape m := by
  induction m with
  | nil => exact absurd hget (by simp [mapGet])
  | cons p m ih =>
    by_cases h : p.1 = k
    · rw [mapGet, if_pos h] at hget
      injection hget with hc
      rw [mapSet, if_pos h]
      simp only [connsShape, List.map_cons]
      rw [show ((k, stripCbs v) : String × ConnectionInfo)
          = (p.1, stripCbs p.2) by rw [h, hv, hc]]
    · rw [mapGet, if_neg h] at hget
      rw [mapSet, if_neg h]
      simp only [connsShape, List.map_cons] at ih ⊢
      rw [ih hget]

theorem stripCbs_set_callbacks (c : ConnectionInfo) (x : List Nat) :
    stripCbs { c with callbacks := x } = stripCbs c := rfl

theorem bindToConnection_frame (s : ManagerState) (key : String) (cb : Nat) :
    connsShape (bindToConnection s key cb).connections
        = connsShape s.connections ∧
    (bindToConnection s key cb).stateUpdateCallbacks
        = s.stateUpdateCallbacks ∧
    (bindToConnection s key cb).pendingCallbacks = s.pendingCallbacks := by
  unfold bindToConnection
  cases hget : mapGet s.connections key with
  | none => exact ⟨rfl, rfl, rfl⟩
  | some c =>
    exact ⟨connsShape_mapSet _ _ _ _ hget (stripCbs_set_callbacks c _),
      rfl, rfl⟩

theorem invokeCallback_connsShape (s : ManagerState) (w : Callback)
    (st : TestState) :
    connsShape ((invokeCallback s w st).1).connections
      = connsShape s.connections := by
  unfold invokeCallback
  cases w.kind with
  | external => rfl
  | forReady f n =>
    by_cases h : readyMatch f n st
    · simp only [if_pos h]
      exact (bindToConnection_frame _ _ _).1
    · simp only [if_neg h]
  | forNewSession f n cur =>
    by_cases h : newSessionMatch f n cur st
    · simp only [if_pos h]
      exact (bindToConnection_frame _ _ _).1
    · simp only [if_neg h]

theorem invokeCallback_callbacks_sublist (s : ManagerState) (w : Callback)
    (st : TestState) :
    (((invokeCallback s w st).1).stateUpdateCallbacks).Sublist
      s.stateUpdateCallbacks := by
  unfold invokeCallback
  cases w.kind with
  | external => exact List.Sublist.refl _
  | forReady f n =>
    by_cases h : readyMatch f n st
    · simp only [if_pos h]
      rw [(bindToConnection_frame _ _ _).2.1]
      exact spliceIndexOf_sublist _ _
    · simp only [if_neg h]
      exact List.Sublist.refl _
  | forNewSession f n cur =>
    by_cases h : newSessionMatch f n cur st
    · simp only [if_pos h]
      rw [(bindToConnection_frame _ _ _).2.1]
      exact removeIfPresent_sublist _ _
    · simp only [if_neg h]
      exact List.Sublist.refl _

/-- The structural invariant behind C2's `hdisj` hypothesis: a waiter that
resolves (produces a resolution) removes itself from the global callback
array in the same step in which it is bound to the connection — so a bound
callback is never left in the global array. -/
theorem resolved_waiter_leaves_global (s : ManagerState) (w : Callback)
    (st : TestState) (hndi : (s.stateUpdateCallbacks.map Callback.id).Nodup)
    (hw : w ∈ s.stateUpdateCallbacks)
    (hres : (invokeCallback s w st).2 ≠ []) :
    ∀ w' ∈ ((invokeCallback s w st).1).stateUpdateCallbacks, w'.id ≠ w.id := by
  revert hres
  unfold invokeCallback
  cases hk : w.kind with
  | external => intro hres; exact absurd rfl hres
  | forReady f n =>
    by_cases hm : readyMatch f n st
    · simp only [if_pos hm]
      intro _ w' hw'
      rw [(bindToConnection_frame _ _ _).2.1] at hw'
      rw [spliceIndexOf_found s.stateUpdateCallbacks w.id
        ⟨w, hw, rfl⟩] at hw'
      exact (mem_removeIfPresent_ne _ _ hndi w' hw').2
    · simp only [if_neg hm]
      intro hres
      exact absurd rfl hres
  | forNewSession f n cur =>
    by_cases hm : newSessionMatch f n cur st
    · simp only [if_pos hm]
      intro _ w' hw'
      rw [(bindToConnection_frame _ _ _).2.1] at hw'
      exact (mem_removeIfPresent_ne _ _ hndi w' hw').2
    · simp only [if_neg hm]
      intro hres
      exact absurd rfl hres

theorem notifyLoop_connsShape (st : TestState) (fuel : Nat) (s : ManagerState)
    (i : Nat) :
    connsShape ((notifyLoop st fuel s i).1).connections
      = connsShape s.connections := by
  induction fuel generalizing s i with
  | zero => rfl
  | succ fuel ih =>
    rw [notifyLoop]
    cases s.stateUpdateCallbacks[i]? with
    | none => rfl
    | some w =>
      simp only
      rw [ih, invokeCallback_connsShape]

/-- Which update states make a stored closure resolve. -/
def kindMatches : CallbackKind → TestState → Bool
  | CallbackKind.external, _ => false
  | CallbackKind.forReady f n, st => readyMatch f n st
  | CallbackKind.forNewSession f n cur, st => newSessionMatch f n cur st

theorem invokeCallback_res (s : ManagerState) (w : Callback) (st : TestState)
    (p : Nat × TestState) (h : p ∈ (invokeCallback s w st).2) :
    p = (w.id, st) ∧ kindMatches w.kind st = true := by
  revert h
  unfold invokeCallback
  cases w.kind with
  | external => intro h; exact absurd h (List.not_mem_nil p)
  | forReady f n =>
    by_cases hm : readyMatch f n st
    · simp only [if_pos hm]
      intro h
      simp only [List.mem_singleton] at h
      exact ⟨h, by rw [kindMatches, hm]⟩
    · simp only [if_neg hm]
      intro h
      exact absurd h (List.not_mem_nil p)
  | forNewSession f n cur =>
    by_cases hm : newSessionMatch f n cur st
    · simp only [if_pos hm]
      intro h
      simp only [List.mem_singleton] at h
      exact ⟨h, by rw [kindMatches, hm]⟩
    · simp only [if_neg hm]
      intro h
      exact absurd h (List.not_mem_nil p)

theorem notifyLoop_res (st : TestState) (fuel : Nat) (s : ManagerState)
    (i : Nat) (p : Nat × TestState) (h : p ∈ (notifyLoop st fuel s i).2) :
    ∃ w ∈ s.stateUpdateCallbacks, p = (w.id, st) ∧
      kindMatches w.kind st = true := by
  induction fuel generalizing s i with
  | zero => exact absurd h (List.not_mem_nil p)
  | succ fuel ih =>
    rw [notifyLoop] at h
    cases hw : s.stateUpdateCallbacks[i]? with
    | none => rw [hw] at h; exact absurd h (List.not_mem_nil p)
    | some w =>
      rw [hw] at h
      simp only [List.mem_append] at h
      rcases h with h | h
      · obtain ⟨hp, hk⟩ := invokeCallback_res s w st p h
        exact ⟨w, List.getElem?_mem hw, hp, hk⟩
      · obtain ⟨w', hw', hp, hk⟩ := ih _ _ h
        exact ⟨w', (invokeCallback_callbacks_sublist s w st).mem hw', hp, hk⟩

/-- `notifyStateUpdate` resolves a waiter only when its own predicate
matches the delivered state. -/
theorem notifyStateUpdate_res (s : ManagerState) (st : TestState)
    (p : Nat × TestState) (h : p ∈ (notifyStateUpdate s st).2) :
    ∃ w ∈ s.stateUpdateCallbacks, p = (w.id, st) ∧
      kindMatches w.kind st = true :=
  notifyLoop_res st _ s 0 p h

/-! ## Concrete fixtures for witnesses and counterexamples -/

/-- A minimal test-state snapshot. -/
def demoState (f n : String) (sid : Option String) : TestState :=
  { testFile := f, testName := n, dom := "<div />", snapshot := "<div />",
    consoleLogs := [], errors := none, sessionId := sid,
    availableContext := none }

/-- A registered connection with empty callback set and resolver map. -/
def demoConn (ws : Nat) (f n : String) (t : Nat) (sid : String) :
    ConnectionInfo :=
  { ws := ws, testFile := f, testName := n, state := demoState f n (some sid),
    connectedAt := t, sessionId := sid, callbacks := [],
    executeResolvers := [] }

/-! ## The claims about the connection manager -/

/-- C5: `sendExecute` against an identity with no ConnectionEntry fails
immediately — before suspending — with the no-connection error, and in that
case it registers no resolver, changes no state, and performs no transport
send. -/
theorem C5_sendExecute_no_connection (s : ManagerState)
    (testFile testName code executeId : String) (resolverId : Nat)
    (h : mapGet s.connections (getConnectionKey testFile testName) = none) :
    sendExecute s testFile testName code executeId resolverId
      = { state := s, sent := [],
          error := some ("No connection found for "
            ++ getConnectionKey testFile testName) } := by
  unfold sendExecute
  simp only [h]

/-- Closed witness for C5: the empty registry rejects an execute request. -/
theorem C5_sendExecute_no_connection_witness :
    sendExecute ⟨[], [], []⟩ "missing" "test" "code" "uuid-1" 0
      = { state := ⟨[], [], []⟩, sent := [],
          error := some ("No connection found for "
            ++ getConnectionKey "missing" "test") } :=
  C5_sendExecute_no_connection ⟨[], [], []⟩ "missing" "test" "code" "uuid-1" 0
    rfl

/-- C10: supplying exactly one of the two identity fields to
`getCurrentState` (a `testFile` without a `testName`, or a `testName`
without a `testFile`) takes the most-recent branch and returns exactly what
supplying no identity at all returns — not the state of an entry matching
the supplied field: with an older matching entry and a newer non-matching
one, the newer entry's state is returned. -/
theorem C10_getCurrentState_single_field :
    (∀ (s : ManagerState) (f : String),
        getCurrentState s (some f) none = getCurrentState s none none) ∧
    (∀ (s : ManagerState) (n : String),
        getCurrentState s none (some n) = getCurrentState s none none) ∧
    (getCurrentState
        ⟨[("a.test:one", demoConn 1 "a.test" "one" 100 "s1"),
          ("b.test:two", demoConn 2 "b.test" "two" 200 "s2")], [], []⟩
        (some "a.test") none
      = some (demoState "b.test" "two" (some "s2"))) := by
  refine ⟨?_, ?_, ?_⟩
  · intro s f
    simp [getCurrentState, jsFalsy]
  · intro s n
    simp [getCurrentState, jsFalsy]
  · decide

theorem newSessionMatch_spec (f n cur : String) (st : TestState)
    (h : newSessionMatch f n cur st = true) :
    st.testFile = f ∧ st.testName = n ∧
      ∃ sid, st.sessionId = some sid ∧ sid ≠ cur ∧ sid ≠ "" := by
  unfold newSessionMatch at h
  cases hs : st.sessionId with
  | none => rw [hs] at h; simp at h
  | some sid =>
    rw [hs] at h
    simp only [Bool.and_eq_true, decide_eq_true_eq, Bool.not_eq_true'] at h
    refine ⟨h.1.1, h.1.2, sid, rfl, h.2.2, fun he => ?_⟩
    rw [he] at h
    exact absurd h.2.1 (by decide)

theorem removeIfPresent_append_fresh (l : List Callback) (w : Callback)
    (h : ∀ x ∈ l, x.id ≠ w.id) : removeIfPresent (l ++ [w]) w.id = l := by
  induction l with
  | nil => rw [List.nil_append, removeIfPresent, if_pos rfl]
  | cons x l ih =>
    rw [List.cons_append, removeIfPresent,
      if_neg (h x (List.mem_cons_self x l)),
      ih (fun y hy => h y (List.mem_cons_of_mem x hy))]

theorem mapDelete_mapSet_fresh {κ β : Type} [DecidableEq κ]
    (m : List (κ × β)) (k : κ) (v : β) (h : ∀ p ∈ m, p.1 ≠ k) :
    mapDelete (mapSet m k v) k = m := by
  induction m with
  | nil => simp [mapSet, mapDelete]
  | cons p m ih =>
    rw [mapSet, if_neg (h p (List.mem_cons_self p m)), mapDelete,
      if_neg (h p (List.mem_cons_self p m)),
      ih (fun q hq => h q (List.mem_cons_of_mem p hq))]

/-- C4: a `waitForNewSession(identity, currentSession, timeout)` waiter
never resolves on a state update whose session id equals `currentSession`,
is absent, or whose identity differs: any resolution it produces is for a
state update carrying its own identity and a session id different from
`currentSession`.  And when the timeout fires instead, the waiter is removed
from both the global callback array and the pending map — the registration
is undone exactly. -/
theorem C4_waitForNewSession_only_new_session (s : ManagerState) (cb : Nat)
    (f n cur : String)
    (hfa : ∀ w ∈ s.stateUpdateCallbacks, w.id ≠ cb)
    (hfp : ∀ p ∈ s.pendingCallbacks, p.1 ≠ cb) :
    (∀ (st : TestState) (p : Nat × TestState),
        p ∈ (notifyStateUpdate (waitForNewSessionRegister s cb f n cur) st).2 →
        p.1 = cb →
        st.testFile = f ∧ st.testName = n ∧
          ∃ sid, st.sessionId = some sid ∧ sid ≠ cur) ∧
    waiterTimeout (waitForNewSessionRegister s cb f n cur) cb = s := by
  constructor
  · intro st p hmem hp
    obtain ⟨w, hw, hpe, hk⟩ :=
      notifyStateUpdate_res (waitForNewSessionRegister s cb f n cur) st p hmem
    have hid : w.id = cb := by rw [hpe] at hp; exact hp
    rcases List.mem_append.mp hw with hw | hw
    · exact absurd hid (hfa w hw)
    · simp only [List.mem_singleton] at hw
      rw [hw] at hk
      obtain ⟨h1, h2, sid, h3, h4, _⟩ :=
        newSessionMatch_spec f n cur st (by rw [kindMatches] at hk; exact hk)
      exact ⟨h1, h2, sid, h3, h4⟩
  · obtain ⟨conns, arr, pend⟩ := s
    unfold waiterTimeout waitForNewSessionRegister
    simp only
    have h1 : removeIfPresent
        (arr ++ [⟨cb, CallbackKind.forNewSession f n cur⟩]) cb = arr :=
      removeIfPresent_append_fresh arr
        ⟨cb, CallbackKind.forNewSession f n cur⟩ (fun x hx => hfa x hx)
    rw [h1, mapDelete_mapSet_fresh pend cb (f, n) (fun p hp => hfp p hp)]

/-- Closed witness for C4 at a concrete fresh waiter. -/
theorem C4_waitForNewSession_only_new_session_witness :
    (∀ (st : TestState) (p : Nat × TestState),
        p ∈ (notifyStateUpdate
          (waitForNewSessionRegister ⟨[], [], []⟩ 5 "a.test" "one" "s1") st).2 →
        p.1 = 5 →
        st.testFile = "a.test" ∧ st.testName = "one" ∧
          ∃ sid, st.sessionId = some sid ∧ sid ≠ "s1") ∧
    waiterTimeout (waitForNewSessionRegister ⟨[], [], []⟩ 5 "a.test" "one" "s1") 5
      = ⟨[], [], []⟩ :=
  C4_waitForNewSession_only_new_session ⟨[], [], []⟩ 5 "a.test" "one" "s1"
    (by simp) (by simp)

/-- C2: when a transport reports closed, the registry removes that
ConnectionEntry, and afterwards no waiter or bound callback attributable to
its TestIdentity remains in the global callback list: the identity's key is
gone from the registry, no pending-map entry for the identity survives,
every waiter that was pending for the identity is purged from the global
array, and no callback bound to the closed connection sits in the global
array (bound callbacks were already unhooked when they resolved, the
invariant `hdisj`). -/
theorem C2_close_purges_identity_callbacks (s : ManagerState) (ws : Nat)
    (k : String) (c : ConnectionInfo)
    (hfind : s.connections.find? (fun p => decide (p.2.ws = ws)) = some (k, c))
    (hkey : k = getConnectionKey c.testFile c.testName)
    (hndk : (s.connections.map Prod.fst).Nodup)
    (hndi : (s.stateUpdateCallbacks.map Callback.id).Nodup)
    (hndp : (s.pendingCallbacks.map Prod.fst).Nodup)
    (hdisj : ∀ cb ∈ c.callbacks, ∀ w ∈ s.stateUpdateCallbacks, w.id ≠ cb) :
    mapGet (removeConnectionByWebSocket s ws).connections k = none ∧
    (∀ p ∈ (removeConnectionByWebSocket s ws).pendingCallbacks,
        ¬(p.2.1 = c.testFile ∧ p.2.2 = c.testName)) ∧
    (∀ cb, (cb, (c.testFile, c.testName)) ∈ s.pendingCallbacks →
        ∀ w ∈ (removeConnectionByWebSocket s ws).stateUpdateCallbacks,
          w.id ≠ cb) ∧
    (∀ cb ∈ c.callbacks,
        ∀ w ∈ (removeConnectionByWebSocket s ws).stateUpdateCallbacks,
          w.id ≠ cb) := by
  have hstate : removeConnectionByWebSocket s ws
      = cleanupCallbacksForTest
          { s with connections := mapDelete s.connections k }
          c.testFile c.testName := by
    unfold removeConnectionByWebSocket
    rw [hfind]
  have hget : mapGet (mapDelete s.connections k)
      (getConnectionKey c.testFile c.testName) = none := by
    rw [← hkey]
    exact mapGet_mapDelete_self _ _ hndk
  have hclean : removeConnectionByWebSocket s ws
      = { connections := mapDelete s.connections k,
          stateUpdateCallbacks :=
            (((s.pendingCallbacks.filter (fun p =>
                decide (p.2.1 = c.testFile) &&
                decide (p.2.2 = c.testName))).map Prod.fst)).foldl
              removeIfPresent s.stateUpdateCallbacks,
          pendingCallbacks :=
            (((s.pendingCallbacks.filter (fun p =>
                decide (p.2.1 = c.testFile) &&
                decide (p.2.2 = c.testName))).map Prod.fst)).foldl
              mapDelete s.pendingCallbacks } := by
    rw [hstate]
    unfold cleanupCallbacksForTest
    simp only [hget]
  rw [hclean]
  refine ⟨mapGet_mapDelete_self _ _ hndk, ?_, ?_, ?_⟩
  · intro p hp ⟨hp1, hp2⟩
    obtain ⟨hmem, hnin⟩ := foldl_mapDelete_mem _ _ p hndp hp
    refine hnin (List.mem_map.mpr ⟨p, List.mem_filter.mpr ⟨hmem, ?_⟩, rfl⟩)
    rw [Bool.and_eq_true, decide_eq_true_eq, decide_eq_true_eq]
    exact ⟨hp1, hp2⟩
  · intro cb hcb w hw
    obtain ⟨hmem, hnin⟩ := foldl_removeIfPresent_mem _ _ hndi w hw
    intro he
    refine hnin (he ▸ List.mem_map.mpr
      ⟨(cb, (c.testFile, c.testName)),
        List.mem_filter.mpr ⟨hcb, by simp⟩, rfl⟩)
  · intro cb hcb w hw
    exact hdisj cb hcb w ((foldl_removeIfPresent_sublist _ _).mem hw)

/-- Closed witness for C2: a registry with one connection owning one bound
callback and one pending waiter for the same identity. -/
theorem C2_close_purges_identity_callbacks_witness :
    mapGet (removeConnectionByWebSocket
        ⟨[("a.test:one", { demoConn 1 "a.test" "one" 100 "s1" with
            callbacks := [7] })],
         [⟨3, CallbackKind.forReady "a.test" "one"⟩],
         [(3, ("a.test", "one"))]⟩ 1).connections "a.test:one" = none ∧
    (∀ p ∈ (removeConnectionByWebSocket
        ⟨[("a.test:one", { demoConn 1 "a.test" "one" 100 "s1" with
            callbacks := [7] })],
         [⟨3, CallbackKind.forReady "a.test" "one"⟩],
         [(3, ("a.test", "one"))]⟩ 1).pendingCallbacks,
        ¬(p.2.1 = "a.test" ∧ p.2.2 = "one")) ∧
    (∀ cb, (cb, (("a.test" : String), ("one" : String)))
          ∈ [(3, (("a.test" : String), ("one" : String)))] →
        ∀ w ∈ (removeConnectionByWebSocket
        ⟨[("a.test:one", { demoConn 1 "a.test" "one" 100 "s1" with
            callbacks := [7] })],
         [⟨3, CallbackKind.forReady "a.test" "one"⟩],
         [(3, ("a.test", "one"))]⟩ 1).stateUpdateCallbacks,
          w.id ≠ cb) ∧
    (∀ cb ∈ ({ demoConn 1 "a.test" "one" 100 "s1" with
            callbacks := [7] } : ConnectionInfo).callbacks,
        ∀ w ∈ (removeConnectionByWebSocket
        ⟨[("a.test:one", { demoConn 1 "a.test" "one" 100 "s1" with
            callbacks := [7] })],
         [⟨3, CallbackKind.forReady "a.test" "one"⟩],
         [(3, ("a.test", "one"))]⟩ 1).stateUpdateCallbacks,
          w.id ≠ cb) :=
  C2_close_purges_identity_callbacks
    ⟨[("a.test:one", { demoConn 1 "a.test" "one" 100 "s1" with
        callbacks := [7] })],
     [⟨3, CallbackKind.forReady "a.test" "one"⟩],
     [(3, ("a.test", "one"))]⟩ 1 "a.test:one"
    { demoConn 1 "a.test" "one" 100 "s1" with callbacks := [7] }
    (by decide) (by decide) (by decide) (by decide) (by decide) (by decide)

/-- With both identity fields present and nonempty, `getCurrentState` is a
plain registry lookup. -/
theorem getCurrentState_lookup (s : ManagerState) (f n : String)
    (hf : f ≠ "") (hn : n ≠ "") :
    getCurrentState s (some f) (some n)
      = (mapGet s.connections (getConnectionKey f n)).map
          (fun c => c.state) := by
  have hf' : jsFalsy (some f) = false := by
    unfold jsFalsy
    rw [← Bool.not_eq_true]
    intro he
    exact hf ((String.isEmpty_iff f).mp he)
  have hn' : jsFalsy (some n) = false := by
    unfold jsFalsy
    rw [← Bool.not_eq_true]
    intro he
    exact hn ((String.isEmpty_iff n).mp he)
  unfold getCurrentState
  rw [hf', hn']
  rfl

/-- A connection holding one pending execute resolver, for C9's inputs. -/
def c9Conn : ConnectionInfo :=
  { demoConn 1 "a.test" "one" 100 "s1" with
    executeResolvers := [("exec-1", 7)] }

/-- A registry holding just `c9Conn`. -/
def c9Start : ManagerState := ⟨[("a.test:one", c9Conn)], [], []⟩

/-- C9, counterexample to the claim as stated: `handleExecutedMessage` does
*not* leave every non-`state` field of the entry unchanged — when the
message's `executeId` matches a pending resolver, that resolver is removed
from the entry's `executeResolvers` map (connectionManager.ts line 132). -/
theorem C9_counterexample_resolvers_change :
    (mapGet ((handleExecutedMessage c9Start 1 "exec-1"
          (demoState "a.test" "one" none)).1).connections
        "a.test:one").map ConnectionInfo.executeResolvers
      ≠ some c9Conn.executeResolvers ∧
    (mapGet ((handleExecutedMessage c9Start 1 "exec-1"
          (demoState "a.test" "one" none)).1).connections
        "a.test:one").map ConnectionInfo.executeResolvers
      = some [] := by
  constructor
  · decide
  · decide

/-- C9, amended: `handleExecutedMessage` stores the state carried in the
message verbatim as the entry's new stored state — without re-tagging it
with the entry's session id — and leaves the entry's `sessionId`, `ws`,
`connectedAt`, `callbacks`, `testFile` and `testName` unchanged, *except*
that the matched `executeId` (when pending) is removed from
`executeResolvers`; every other registry entry and the global callback lists
are untouched.  Consequently, after an executed message whose state omits
`sessionId`, `getCurrentState` for that identity returns a state with no
session id even though the entry's own `sessionId` is still set. -/
theorem C9_handleExecuted_stores_verbatim (s : ManagerState) (ws : Nat)
    (executeId : String) (newSt : TestState) (k : String) (c : ConnectionInfo)
    (hfind : s.connections.find? (fun p => decide (p.2.ws = ws))
      = some (k, c)) :
    mapGet ((handleExecutedMessage s ws executeId newSt).1).connections k
      = some
        { c with
          state := newSt,
          executeResolvers := mapDelete c.executeResolvers executeId } ∧
    (∀ k', k' ≠ k →
      mapGet ((handleExecutedMessage s ws executeId newSt).1).connections k'
        = mapGet s.connections k') ∧
    ((handleExecutedMessage s ws executeId newSt).1).stateUpdateCallbacks
      = s.stateUpdateCallbacks ∧
    ((handleExecutedMessage s ws executeId newSt).1).pendingCallbacks
      = s.pendingCallbacks ∧
    (newSt.sessionId = none → k = getConnectionKey c.testFile c.testName →
      c.testFile ≠ "" → c.testName ≠ "" →
      getCurrentState (handleExecutedMessage s ws executeId newSt).1
          (some c.testFile) (some c.testName) = some newSt ∧
      ({ c with
         state := newSt,
         executeResolvers :=
           mapDelete c.executeResolvers executeId }).sessionId
        = c.sessionId) := by
  have h1 : (handleExecutedMessage s ws executeId newSt).1
      = { s with
          connections := mapSet s.connections k
            { c with
              state := newSt,
              executeResolvers :=
                mapDelete c.executeResolvers executeId } } := by
    unfold handleExecutedMessage
    rw [hfind]
  rw [h1]
  refine ⟨mapGet_mapSet_self _ _ _, fun k' hk' =>
    mapGet_mapSet_ne _ _ _ _ hk', rfl, rfl, fun hsid hkey hf hn => ⟨?_, rfl⟩⟩
  rw [getCurrentState_lookup _ _ _ hf hn]
  simp only [← hkey]
  rw [show mapGet (mapSet s.connections k
      { c with
        state := newSt,
        executeResolvers := mapDelete c.executeResolvers executeId }) k
    = some
      { c with
        state := newSt,
        executeResolvers := mapDelete c.executeResolvers executeId }
    from mapGet_mapSet_self _ _ _]
  rfl

/-- Closed witness for C9's amended theorem, at the same concrete input the
counterexample uses. -/
theorem C9_handleExecuted_stores_verbatim_witness :
    mapGet ((handleExecutedMessage c9Start 1 "exec-1"
        (demoState "a.test" "one" none)).1).connections "a.test:one"
      = some
        { c9Conn with
          state := demoState "a.test" "one" none,
          executeResolvers := mapDelete c9Conn.executeResolvers "exec-1" } ∧
    (∀ k', k' ≠ "a.test:one" →
      mapGet ((handleExecutedMessage c9Start 1 "exec-1"
          (demoState "a.test" "one" none)).1).connections k'
        = mapGet c9Start.connections k') ∧
    ((handleExecutedMessage c9Start 1 "exec-1"
        (demoState "a.test" "one" none)).1).stateUpdateCallbacks
      = c9Start.stateUpdateCallbacks ∧
    ((handleExecutedMessage c9Start 1 "exec-1"
        (demoState "a.test" "one" none)).1).pendingCallbacks
      = c9Start.pendingCallbacks ∧
    ((demoState "a.test" "one" none).sessionId = none →
      "a.test:one" = getConnectionKey c9Conn.testFile c9Conn.testName →
      c9Conn.testFile ≠ "" → c9Conn.testName ≠ "" →
      getCurrentState (handleExecutedMessage c9Start 1 "exec-1"
          (demoState "a.test" "one" none)).1
          (some c9Conn.testFile) (some c9Conn.testName)
        = some (demoState "a.test" "one" none) ∧
      ({ c9Conn with
         state := demoState "a.test" "one" none,
         executeResolvers :=
           mapDelete c9Conn.executeResolvers "exec-1" }).sessionId
        = c9Conn.sessionId) :=
  C9_handleExecuted_stores_verbatim c9Start 1 "exec-1"
    (demoState "a.test" "one" none) "a.test:one" c9Conn (by decide)

/-- The fresh `ConnectionInfo` built by `handleReadyMessage` (lines 86-95):
new socket, identity from the incoming state, state tagged with the fresh
session id, fresh timestamp, empty callback set and resolver map. -/
def freshConnection (ws : Nat) (st : TestState) (sid : String) (now : Nat) :
    ConnectionInfo :=
  { ws := ws, testFile := st.testFile, testName := st.testName,
    state := { st with sessionId := some sid }, connectedAt := now,
    sessionId := sid, callbacks := [], executeResolvers := [] }

/-- C6: a second `ready` for an already-registered identity overwrites the
registry slot with a fresh entry carrying the fresh session id — no state
merging: new socket, freshly tagged state, empty resolver map, new
timestamp.  The registry still holds at most one entry per key, and
`getCurrentState` for the identity thereafter returns the state tagged with
the new session id, never the prior one; even after a subsequent `executed`
message storing a client state (which carries no session id), the prior
session id is never re-exposed. -/
theorem C6_second_ready_overwrites (s : ManagerState) (ws2 : Nat)
    (st : TestState) (sid2 : String) (now : Nat) (old : ConnectionInfo)
    (_hold : mapGet s.connections
        (getConnectionKey st.testFile st.testName) = some old)
    (hfresh : sid2 ≠ old.sessionId)
    (hndk : (s.connections.map Prod.fst).Nodup)
    (hf : st.testFile ≠ "") (hn : st.testName ≠ "") :
    (((handleReadyMessage s ws2 st sid2 now).1).connections.map
        Prod.fst).Nodup ∧
    (∃ e, mapGet ((handleReadyMessage s ws2 st sid2 now).1).connections
          (getConnectionKey st.testFile st.testName) = some e ∧
        e.ws = ws2 ∧ e.state = { st with sessionId := some sid2 } ∧
        e.sessionId = sid2 ∧ e.connectedAt = now ∧ e.executeResolvers = []) ∧
    (getCurrentState (handleReadyMessage s ws2 st sid2 now).1
        (some st.testFile) (some st.testName)
      = some { st with sessionId := some sid2 } ∧
      (some sid2 : Option String) ≠ some old.sessionId) ∧
    (∀ (ws' : Nat) (tok : String) (exSt : TestState) (r : TestState),
        exSt.sessionId = none →
        getCurrentState
            (handleExecutedMessage (handleReadyMessage s ws2 st sid2 now).1
              ws' tok exSt).1
            (some st.testFile) (some st.testName) = some r →
        r.sessionId ≠ some old.sessionId) := by
  have h0 : (handleReadyMessage s ws2 st sid2 now).1
      = (notifyStateUpdate
          { s with
            connections := mapSet s.connections
              (getConnectionKey st.testFile st.testName)
              (freshConnection ws2 st sid2 now) }
          { st with sessionId := some sid2 }).1 := rfl
  have hshape : connsShape ((handleReadyMessage s ws2 st sid2 now).1).connections
      = connsShape (mapSet s.connections
          (getConnectionKey st.testFile st.testName)
          (freshConnection ws2 st sid2 now)) := by
    rw [h0]
    exact notifyLoop_connsShape _ _ _ 0
  have hkeys : ((handleReadyMessage s ws2 st sid2 now).1).connections.map
        Prod.fst
      = (mapSet s.connections (getConnectionKey st.testFile st.testName)
          (freshConnection ws2 st sid2 now)).map Prod.fst := by
    rw [← connsShape_keys, hshape, connsShape_keys]
  have hm : (mapGet ((handleReadyMessage s ws2 st sid2 now).1).connections
        (getConnectionKey st.testFile st.testName)).map stripCbs
      = some (stripCbs (freshConnection ws2 st sid2 now)) := by
    rw [← mapGet_connsShape, hshape, mapGet_connsShape, mapGet_mapSet_self]
    rfl
  obtain ⟨e, hme, hsc⟩ : ∃ e,
      mapGet ((handleReadyMessage s ws2 st sid2 now).1).connections
        (getConnectionKey st.testFile st.testName) = some e ∧
      stripCbs e = stripCbs (freshConnection ws2 st sid2 now) := by
    cases hx : mapGet ((handleReadyMessage s ws2 st sid2 now).1).connections
        (getConnectionKey st.testFile st.testName) with
    | none => rw [hx] at hm; exact absurd hm (by simp)
    | some e =>
      rw [hx] at hm
      exact ⟨e, rfl, Option.some.inj hm⟩
  have hews : e.ws = ws2 := congrArg ConnectionInfo.ws hsc
  have hest : e.state = { st with sessionId := some sid2 } :=
    congrArg ConnectionInfo.state hsc
  have hesid : e.sessionId = sid2 := congrArg ConnectionInfo.sessionId hsc
  have heca : e.connectedAt = now := congrArg ConnectionInfo.connectedAt hsc
  have heres : e.executeResolvers = [] :=
    congrArg ConnectionInfo.executeResolvers hsc
  refine ⟨?_, ⟨e, hme, hews, hest, hesid, heca, heres⟩, ⟨?_, ?_⟩, ?_⟩
  · rw [hkeys]
    exact mapSet_keys_nodup _ _ _ hndk
  · rw [getCurrentState_lookup _ _ _ hf hn, hme, Option.map_some', hest]
  · simpa using hfresh
  · intro ws' tok exSt r hsid hgc
    cases hfind2 : ((handleReadyMessage s ws2 st sid2 now).1).connections.find?
        (fun p => decide (p.2.ws = ws')) with
    | none =>
      have hunch : (handleExecutedMessage
          (handleReadyMessage s ws2 st sid2 now).1 ws' tok exSt).1
          = (handleReadyMessage s ws2 st sid2 now).1 := by
        unfold handleExecutedMessage
        rw [hfind2]
      rw [hunch, getCurrentState_lookup _ _ _ hf hn, hme,
        Option.map_some', hest] at hgc
      have hr := Option.some.inj hgc
      rw [← hr]
      simpa using hfresh
    | some p2 =>
      obtain ⟨k2, c2⟩ := p2
      have h2 : (handleExecutedMessage
          (handleReadyMessage s ws2 st sid2 now).1 ws' tok exSt).1
          = { (handleReadyMessage s ws2 st sid2 now).1 with
              connections := mapSet
                ((handleReadyMessage s ws2 st sid2 now).1).connections k2
                { c2 with
                  state := exSt,
                  executeResolvers :=
                    mapDelete c2.executeResolvers tok } } := by
        unfold handleExecutedMessage
        rw [hfind2]
      rw [h2, getCurrentState_lookup _ _ _ hf hn] at hgc
      by_cases hk2 : k2 = getConnectionKey st.testFile st.testName
      · rw [hk2] at hgc
        rw [show mapGet (mapSet
            ((handleReadyMessage s ws2 st sid2 now).1).connections
            (getConnectionKey st.testFile st.testName)
            { c2 with
              state := exSt,
              executeResolvers := mapDelete c2.executeResolvers tok })
            (getConnectionKey st.testFile st.testName)
          = some { c2 with
              state := exSt,
              executeResolvers := mapDelete c2.executeResolvers tok }
          from mapGet_mapSet_self _ _ _] at hgc
        rw [Option.map_some'] at hgc
        have hr := Option.some.inj hgc
        rw [← hr, show ({ c2 with
            state := exSt,
            executeResolvers := mapDelete c2.executeResolvers tok }
              : ConnectionInfo).state = exSt from rfl, hsid]
        simp
      · rw [show mapGet (mapSet
            ((handleReadyMessage s ws2 st sid2 now).1).connections k2
            { c2 with
              state := exSt,
              executeResolvers := mapDelete c2.executeResolvers tok })
            (getConnectionKey st.testFile st.testName)
          = mapGet ((handleReadyMessage s ws2 st sid2 now).1).connections
              (getConnectionKey st.testFile st.testName)
          from mapGet_mapSet_ne _ _ _ _ (fun he => hk2 he.symm)] at hgc
        rw [hme, Option.map_some', hest] at hgc
        have hr := Option.some.inj hgc
        rw [← hr]
        simpa using hfresh

/-- Closed witness for C6: a one-entry registry receives a second `ready`
for the same identity with a fresh session id. -/
theorem C6_second_ready_overwrites_witness :
    (((handleReadyMessage
        ⟨[("a.test:one", demoConn 1 "a.test" "one" 100 "s1")], [], []⟩
        2 (demoState "a.test" "one" none) "s2" 200).1).connections.map
        Prod.fst).Nodup ∧
    (∃ e, mapGet ((handleReadyMessage
          ⟨[("a.test:one", demoConn 1 "a.test" "one" 100 "s1")], [], []⟩
          2 (demoState "a.test" "one" none) "s2" 200).1).connections
          (getConnectionKey (demoState "a.test" "one" none).testFile
            (demoState "a.test" "one" none).testName) = some e ∧
        e.ws = 2 ∧
        e.state = { demoState "a.test" "one" none with
          sessionId := some "s2" } ∧
        e.sessionId = "s2" ∧ e.connectedAt = 200 ∧ e.executeResolvers = []) ∧
    (getCurrentState (handleReadyMessage
          ⟨[("a.test:one", demoConn 1 "a.test" "one" 100 "s1")], [], []⟩
          2 (demoState "a.test" "one" none) "s2" 200).1
        (some (demoState "a.test" "one" none).testFile)
        (some (demoState "a.test" "one" none).testName)
      = some { demoState "a.test" "one" none with sessionId := some "s2" } ∧
      (some "s2" : Option String)
        ≠ some (demoConn 1 "a.test" "one" 100 "s1").sessionId) ∧
    (∀ (ws' : Nat) (tok : String) (exSt : TestState) (r : TestState),
        exSt.sessionId = none →
        getCurrentState
            (handleExecutedMessage (handleReadyMessage
              ⟨[("a.test:one", demoConn 1 "a.test" "one" 100 "s1")], [], []⟩
              2 (demoState "a.test" "one" none) "s2" 200).1 ws' tok exSt).1
            (some (demoState "a.test" "one" none).testFile)
            (some (demoState "a.test" "one" none).testName) = some r →
        r.sessionId ≠ some (demoConn 1 "a.test" "one" 100 "s1").sessionId) :=
  C6_second_ready_overwrites
    ⟨[("a.test:one", demoConn 1 "a.test" "one" 100 "s1")], [], []⟩
    2 (demoState "a.test" "one" none) "s2" 200
    (demoConn 1 "a.test" "one" 100 "s1")
    (by decide) (by decide) (by decide) (by decide) (by decide)

/-! ## C3: the execute correlator -/

/-- Deliver a sequence of `executed` frames (socket, executeId, state) in
arrival order. -/
def deliverAll : ManagerState → List (Nat × String × TestState) →
    ManagerState × List (Nat × TestState)
  | s, [] => (s, [])
  | s, msg :: msgs =>
    let r := handleExecutedMessage s msg.1 msg.2.1 msg.2.2
    let rest := deliverAll r.1 msgs
    (rest.1, r.2 ++ rest.2)

/-- The situation after `sendExecute` mints token `tok` against the identity
keyed `k` whose connection owns socket `ws`: the socket's first registry
match is that entry, `tok` is registered there mapping to resolver `r`,
registry keys are unique, and neither `tok` nor `r` occurs in any other
resolver entry (`randomUUID` tokens and promise resolvers are fresh). -/
def tokenFresh (s : ManagerState) (ws : Nat) (k : String) (tok : String)
    (r : Nat) : Prop :=
  (∃ c, s.connections.find? (fun p => decide (p.2.ws = ws)) = some (k, c) ∧
      mapGet c.executeResolvers tok = some r) ∧
  (s.connections.map Prod.fst).Nodup ∧
  (∀ p ∈ s.connections, ∀ q ∈ p.2.executeResolvers,
      q.1 = tok ∨ q.2 = r → p.1 = k ∧ q.1 = tok ∧ q.2 = r)

theorem tokenFresh_step (s : ManagerState) (ws : Nat) (k tok : String)
    (r : Nat) (hInv : tokenFresh s ws k tok r) (ws' : Nat) (t' : String)
    (st' : TestState) (ht : t' ≠ tok) :
    tokenFresh (handleExecutedMessage s ws' t' st').1 ws k tok r ∧
    (∀ p ∈ (handleExecutedMessage s ws' t' st').2, p.1 ≠ r) := by
  obtain ⟨⟨c, hfind, hres⟩, hndk, hforall⟩ := hInv
  cases hfind2 : s.connections.find? (fun p => decide (p.2.ws = ws')) with
  | none =>
    have h1 : handleExecutedMessage s ws' t' st' = (s, []) := by
      unfold handleExecutedMessage
      rw [hfind2]
    rw [h1]
    exact ⟨⟨⟨c, hfind, hres⟩, hndk, hforall⟩, by simp⟩
  | some p2 =>
    obtain ⟨k2, c2⟩ := p2
    have hmem2 : (k2, c2) ∈ s.connections := List.mem_of_find?_eq_some hfind2
    have hget2 : mapGet s.connections k2 = some c2 :=
      mapGet_of_mem_nodup _ _ _ hndk hmem2
    have h1 : handleExecutedMessage s ws' t' st'
        = ({ s with
             connections := mapSet s.connections k2
               { c2 with
                 state := st',
                 executeResolvers := mapDelete c2.executeResolvers t' } },
           match mapGet c2.executeResolvers t' with
           | some r' => [(r', st')]
           | none => []) := by
      unfold handleExecutedMessage
      rw [hfind2]
    have hmapset : mapSet s.connections k2
        { c2 with
          state := st',
          executeResolvers := mapDelete c2.executeResolvers t' }
        = s.connections.map (fun p => if p.1 = k2 then
            (k2, { c2 with
                   state := st',
                   executeResolvers := mapDelete c2.executeResolvers t' })
          else p) :=
      mapSet_eq_map_of_get _ _ _ _ hndk hget2
    have hvalc2 : ∀ p ∈ s.connections, p.1 = k2 → p.2 = c2 := by
      intro p hp hpk
      have hgp : mapGet s.connections p.1 = some p.2 :=
        mapGet_of_mem_nodup _ _ _ hndk hp
      rw [hpk, hget2] at hgp
      exact (Option.some.inj hgp).symm
    have hq : ∀ p ∈ s.connections,
        (fun p => decide (p.2.ws = ws))
          ((fun p => if p.1 = k2 then
            (k2, { c2 with
                   state := st',
                   executeResolvers := mapDelete c2.executeResolvers t' })
            else p) p)
        = (fun p => decide (p.2.ws = ws)) p := by
      intro p hp
      by_cases hpk : p.1 = k2
      · simp only [if_pos hpk, hvalc2 p hp hpk]
      · simp only [if_neg hpk]
    have hfindnew : (mapSet s.connections k2
        { c2 with
          state := st',
          executeResolvers := mapDelete c2.executeResolvers t' }).find?
          (fun p => decide (p.2.ws = ws))
        = some (if k = k2 then
            (k2, { c2 with
                   state := st',
                   executeResolvers := mapDelete c2.executeResolvers t' })
          else (k, c)) := by
      rw [hmapset, find?_map_pred _ _ _ hq, hfind, Option.map_some']
    have hkeysnew : (mapSet s.connections k2
        { c2 with
          state := st',
          executeResolvers := mapDelete c2.executeResolvers t' }).map Prod.fst
        = s.connections.map Prod.fst := by
      rw [hmapset, List.map_map]
      refine List.map_congr_left ?_
      intro p hp
      by_cases hpk : p.1 = k2
      · simp only [Function.comp, if_pos hpk]
        exact hpk.symm
      · simp only [Function.comp, if_neg hpk]
    rw [h1]
    refine ⟨⟨?_, ?_, ?_⟩, ?_⟩
    · by_cases hk2 : k = k2
      · subst hk2
        have hc2c : c2 = c := by
          have hmemc : (k, c) ∈ s.connections := List.mem_of_find?_eq_some hfind
          exact mem_key_unique _ _ _ _ hndk hmem2 hmemc
        refine ⟨{ c2 with
            state := st',
            executeResolvers := mapDelete c2.executeResolvers t' },
          by rw [hfindnew, if_pos rfl], ?_⟩
        show mapGet (mapDelete c2.executeResolvers t') tok = some r
        rw [mapGet_mapDelete_ne _ _ _ (fun he => ht he.symm), hc2c]
        exact hres
      · exact ⟨c, by rw [hfindnew, if_neg hk2], hres⟩
    · rw [hkeysnew]
      exact hndk
    · intro p' hp' q hq' hpre
      rw [hmapset] at hp'
      obtain ⟨p, hp, hfp⟩ := List.mem_map.mp hp'
      by_cases hpk : p.1 = k2
      · rw [if_pos hpk] at hfp
        rw [← hfp] at hq' ⊢
        have hq'' : q ∈ c2.executeResolvers :=
          mem_mapDelete _ _ _ hq'
        obtain ⟨ha, hb, hc'⟩ := hforall (k2, c2) hmem2 q hq'' hpre
        exact ⟨ha, hb, hc'⟩
      · rw [if_neg hpk] at hfp
        rw [← hfp] at hq' ⊢
        exact hforall p hp q hq' hpre
    · intro p hp hpr
      revert hp
      cases hres2 : mapGet c2.executeResolvers t' with
      | none => intro hp; exact absurd hp (List.not_mem_nil p)
      | some r2 =>
        intro hp
        simp only [List.mem_singleton] at hp
        have hmemr : (t', r2) ∈ c2.executeResolvers :=
          mapGet_eq_some_mem _ _ _ hres2
        have hr2 : r2 = r := by rw [hp] at hpr; exact hpr
        obtain ⟨_, hb, _⟩ :=
          hforall (k2, c2) hmem2 (t', r2) hmemr (Or.inr hr2)
        exact absurd hb ht

theorem tokenFresh_deliverAll (s : ManagerState) (ws : Nat) (k tok : String)
    (r : Nat) (hInv : tokenFresh s ws k tok r)
    (msgs : List (Nat × String × TestState))
    (hmsgs : ∀ m ∈ msgs, m.2.1 ≠ tok) :
    tokenFresh (deliverAll s msgs).1 ws k tok r ∧
    (∀ p ∈ (deliverAll s msgs).2, p.1 ≠ r) := by
  induction msgs generalizing s with
  | nil => exact ⟨hInv, by simp [deliverAll]⟩
  | cons msg msgs ih =>
    have hstep := tokenFresh_step s ws k tok r hInv msg.1 msg.2.1 msg.2.2
      (hmsgs msg (List.mem_cons_self msg msgs))
    have hrest := ih _ hstep.1
      (fun m hm => hmsgs m (List.mem_cons_of_mem msg hm))
    constructor
    · show tokenFresh (deliverAll
        (handleExecutedMessage s msg.1 msg.2.1 msg.2.2).1 msgs).1 ws k tok r
      exact hrest.1
    · intro p hp
      have hp' : p ∈ (handleExecutedMessage s msg.1 msg.2.1 msg.2.2).2
          ++ (deliverAll (handleExecutedMessage s msg.1 msg.2.1 msg.2.2).1
              msgs).2 := hp
      rcases List.mem_append.mp hp' with h | h
      · exact hstep.2 p h
      · exact hrest.2 p h

theorem tokenFresh_hit (s : ManagerState) (ws : Nat) (k tok : String)
    (r : Nat) (hInv : tokenFresh s ws k tok r) (stF : TestState) :
    (handleExecutedMessage s ws tok stF).2 = [(r, stF)] := by
  obtain ⟨⟨c, hfind, hres⟩, _, _⟩ := hInv
  unfold handleExecutedMessage
  rw [hfind]
  simp only [hres]

theorem tokenFresh_cross (s : ManagerState) (ws : Nat) (k tok : String)
    (r : Nat) (hInv : tokenFresh s ws k tok r) (ws' : Nat) (t' : String)
    (st' : TestState) (p : Nat × TestState)
    (hp : p ∈ (handleExecutedMessage s ws' t' st').2) (hpr : p.1 = r) :
    t' = tok ∧ ∃ c2, s.connections.find? (fun q => decide (q.2.ws = ws'))
      = some (k, c2) := by
  obtain ⟨⟨c, hfind, hres⟩, hndk, hforall⟩ := hInv
  cases hfind2 : s.connections.find? (fun q => decide (q.2.ws = ws')) with
  | none =>
    have h1 : handleExecutedMessage s ws' t' st' = (s, []) := by
      unfold handleExecutedMessage
      rw [hfind2]
    rw [h1] at hp
    exact absurd hp (List.not_mem_nil p)
  | some p2 =>
    obtain ⟨k2, c2⟩ := p2
    have hmem2 : (k2, c2) ∈ s.connections := List.mem_of_find?_eq_some hfind2
    have h1 : (handleExecutedMessage s ws' t' st').2
        = (match mapGet c2.executeResolvers t' with
           | some r' => [(r', st')]
           | none => []) := by
      unfold handleExecutedMessage
      rw [hfind2]
    rw [h1] at hp
    revert hp
    cases hres2 : mapGet c2.executeResolvers t' with
    | none => intro hp; exact absurd hp (List.not_mem_nil p)
    | some r2 =>
      intro hp
      simp only [List.mem_singleton] at hp
      have hmemr : (t', r2) ∈ c2.executeResolvers :=
        mapGet_eq_some_mem _ _ _ hres2
      have hr2 : r2 = r := by rw [hp] at hpr; exact hpr
      obtain ⟨ha, hb, _⟩ :=
        hforall (k2, c2) hmem2 (t', r2) hmemr (Or.inr hr2)
      have hk2k : k2 = k := ha
      exact ⟨hb, c2, by rw [hk2k]⟩

/-- `sendExecute` on a connected identity with a freshly minted token and
resolver establishes `tokenFresh`. -/
theorem sendExecute_tokenFresh (s : ManagerState) (f n code tok : String)
    (r : Nat) (c0 : ConnectionInfo)
    (hget : mapGet s.connections (getConnectionKey f n) = some c0)
    (hfind : s.connections.find? (fun p => decide (p.2.ws = c0.ws))
      = some (getConnectionKey f n, c0))
    (hndk : (s.connections.map Prod.fst).Nodup)
    (hfreshtok : ∀ p ∈ s.connections, ∀ q ∈ p.2.executeResolvers,
      q.1 ≠ tok ∧ q.2 ≠ r) :
    tokenFresh (sendExecute s f n code tok r).state c0.ws
      (getConnectionKey f n) tok r := by
  have h1 : (sendExecute s f n code tok r).state
      = { s with
          connections := mapSet s.connections (getConnectionKey f n)
            { c0 with
              executeResolvers := mapSet c0.executeResolvers tok r } } := by
    unfold sendExecute
    simp only [hget]
  have hmapset : mapSet s.connections (getConnectionKey f n)
      { c0 with executeResolvers := mapSet c0.executeResolvers tok r }
      = s.connections.map (fun p => if p.1 = getConnectionKey f n then
          (getConnectionKey f n,
            { c0 with executeResolvers := mapSet c0.executeResolvers tok r })
        else p) :=
    mapSet_eq_map_of_get _ _ _ _ hndk hget
  have hvalc0 : ∀ p ∈ s.connections, p.1 = getConnectionKey f n →
      p.2 = c0 := by
    intro p hp hpk
    have hgp : mapGet s.connections p.1 = some p.2 :=
      mapGet_of_mem_nodup _ _ _ hndk hp
    rw [hpk, hget] at hgp
    exact (Option.some.inj hgp).symm
  have hq : ∀ p ∈ s.connections,
      (fun p => decide (p.2.ws = c0.ws))
        ((fun p => if p.1 = getConnectionKey f n then
          (getConnectionKey f n,
            { c0 with executeResolvers := mapSet c0.executeResolvers tok r })
          else p) p)
      = (fun p => decide (p.2.ws = c0.ws)) p := by
    intro p hp
    by_cases hpk : p.1 = getConnectionKey f n
    · simp only [if_pos hpk, hvalc0 p hp hpk]
    · simp only [if_neg hpk]
  rw [h1]
  refine ⟨?_, ?_, ?_⟩
  · refine ⟨{ c0 with
        executeResolvers := mapSet c0.executeResolvers tok r }, ?_, ?_⟩
    · show (mapSet s.connections (getConnectionKey f n)
        { c0 with
          executeResolvers := mapSet c0.executeResolvers tok r }).find?
        (fun p => decide (p.2.ws = c0.ws)) = _
      rw [hmapset, find?_map_pred _ _ _ hq, hfind, Option.map_some',
        if_pos rfl]
    · show mapGet (mapSet c0.executeResolvers tok r) tok = some r
      exact mapGet_mapSet_self _ _ _
  · show ((mapSet s.connections (getConnectionKey f n)
        { c0 with
          executeResolvers := mapSet c0.executeResolvers tok r }).map
        Prod.fst).Nodup
    exact mapSet_keys_nodup _ _ _ hndk
  · intro p' hp' q hq' hpre
    show p'.1 = getConnectionKey f n ∧ q.1 = tok ∧ q.2 = r
    rw [hmapset] at hp'
    obtain ⟨p, hp, hfp⟩ := List.mem_map.mp hp'
    by_cases hpk : p.1 = getConnectionKey f n
    · rw [if_pos hpk] at hfp
      rw [← hfp] at hq' ⊢
      rcases mem_mapSet _ _ _ _ hq' with hq'' | hq''
      · obtain ⟨ha, hb⟩ := hfreshtok p hp q
          (by rw [hvalc0 p hp hpk]; exact hq'')
        rcases hpre with hpre | hpre
        · exact absurd hpre ha
        · exact absurd hpre hb
      · rw [hq'']
        exact ⟨rfl, rfl, rfl⟩
    · rw [if_neg hpk] at hfp
      rw [← hfp] at hq' ⊢
      obtain ⟨ha, hb⟩ := hfreshtok p hp q hq'
      rcases hpre with hpre | hpre
      · exact absurd hpre ha
      · exact absurd hpre hb

/-- C3: after `sendExecute` against a connected identity mints its token,
(1) delivering any number of `executed` frames carrying other tokens — on
this or any other connection — never invokes this call's resolver (and so
never resolves the call), (2) the frame on this connection's socket carrying
the minted token then resolves exactly this call's resolver with exactly the
state carried in that frame, and (3) any frame whose delivery resolves this
call's resolver must carry the minted token on a socket whose first registry
match is this identity's entry — an `executed` reply on one connection never
resolves a token minted for a different connection. -/
theorem C3_sendExecute_resolves_on_matching_token (s0 : ManagerState)
    (f n code tok : String) (r : Nat) (c0 : ConnectionInfo)
    (hget : mapGet s0.connections (getConnectionKey f n) = some c0)
    (hfind : s0.connections.find? (fun p => decide (p.2.ws = c0.ws))
      = some (getConnectionKey f n, c0))
    (hndk : (s0.connections.map Prod.fst).Nodup)
    (hfreshtok : ∀ p ∈ s0.connections, ∀ q ∈ p.2.executeResolvers,
      q.1 ≠ tok ∧ q.2 ≠ r)
    (msgs : List (Nat × String × TestState))
    (hmsgs : ∀ m ∈ msgs, m.2.1 ≠ tok) (stF : TestState) :
    (∀ p ∈ (deliverAll (sendExecute s0 f n code tok r).state msgs).2,
        p.1 ≠ r) ∧
    (handleExecutedMessage
        (deliverAll (sendExecute s0 f n code tok r).state msgs).1
        c0.ws tok stF).2 = [(r, stF)] ∧
    (∀ (ws' : Nat) (t' : String) (st' : TestState) (p : Nat × TestState),
        p ∈ (handleExecutedMessage (sendExecute s0 f n code tok r).state
          ws' t' st').2 →
        p.1 = r →
        t' = tok ∧ ∃ c2,
          (sendExecute s0 f n code tok r).state.connections.find?
            (fun q => decide (q.2.ws = ws')) = some (getConnectionKey f n, c2)) := by
  have hInv := sendExecute_tokenFresh s0 f n code tok r c0 hget hfind hndk
    hfreshtok
  have hdel := tokenFresh_deliverAll _ _ _ _ _ hInv msgs hmsgs
  exact ⟨hdel.2, tokenFresh_hit _ _ _ _ _ hdel.1 stF,
    fun ws' t' st' p hp hpr =>
      tokenFresh_cross _ _ _ _ _ hInv ws' t' st' p hp hpr⟩

/-- Two connected identities on distinct sockets, for C3's witness. -/
def c3Start : ManagerState :=
  ⟨[("a.test:one", demoConn 1 "a.test" "one" 100 "s1"),
    ("b.test:two", demoConn 2 "b.test" "two" 150 "s2")], [], []⟩

/-- Closed witness for C3: an execute on the first identity, an unrelated
`executed` frame on the second connection first, then the matching frame. -/
theorem C3_sendExecute_resolves_on_matching_token_witness :
    (∀ p ∈ (deliverAll
        (sendExecute c3Start "a.test" "one" "code" "tok-1" 9).state
        [(2, "tok-2", demoState "b.test" "two" none)]).2, p.1 ≠ 9) ∧
    (handleExecutedMessage
        (deliverAll (sendExecute c3Start "a.test" "one" "code" "tok-1" 9).state
          [(2, "tok-2", demoState "b.test" "two" none)]).1
        (demoConn 1 "a.test" "one" 100 "s1").ws "tok-1"
        (demoState "a.test" "one" none)).2
      = [(9, demoState "a.test" "one" none)] ∧
    (∀ (ws' : Nat) (t' : String) (st' : TestState) (p : Nat × TestState),
        p ∈ (handleExecutedMessage
          (sendExecute c3Start "a.test" "one" "code" "tok-1" 9).state
          ws' t' st').2 →
        p.1 = 9 →
        t' = "tok-1" ∧ ∃ c2,
          (sendExecute c3Start "a.test" "one" "code"
              "tok-1" 9).state.connections.find?
            (fun q => decide (q.2.ws = ws'))
          = some (getConnectionKey "a.test" "one", c2)) :=
  C3_sendExecute_resolves_on_matching_token c3Start "a.test" "one" "code"
    "tok-1" 9 (demoConn 1 "a.test" "one" 100 "s1")
    (by decide) (by decide) (by decide) (by decide)
    [(2, "tok-2", demoState "b.test" "two" none)] (by decide)
    (demoState "a.test" "one" none)

end TestingMcp
